import Mathlib

/-!
Verification of the task-tracker program (src/tatra.cpp).

Strings are modelled as lists of characters (`Str`).  The C++
`std::string::find` / `substr` / `stoi` primitives used by the loader are
embedded faithfully, including the `npos` sentinel and the `size_t`
wrap-around that the original code performs when it adds an offset to a
failed `find` result.  Fallible C++ operations (a thrown exception from
`stoi` or `substr`, or a non-terminating scan loop) are modelled by
`Option`, with `none` for the runs that throw or diverge.
-/

/-- Character strings, as in the C++ code (a sequence of characters). -/
abbrev Str := List Char

/-- `std::string::npos`, the value of `(size_t)-1` on the 64-bit target. -/
def NPOS : Nat := 2 ^ 64 - 1

/-- `size_t` addition with wrap-around modulo `2^64`, as performed by the
loader when it adds a field-name offset to the result of `find`. -/
def pAdd (a b : Nat) : Nat := (a + b) % 2 ^ 64

/-- Whether `pat` matches the front of `s` character by character. -/
def matchAt : Str → Str → Bool
  | [], _ => true
  | _ :: _, [] => false
  | p :: ps, c :: cs => if p = c then matchAt ps cs else false

/-- Scan of `s` for the first position (counted from `i`) where `pat`
matches; the worker behind `std::string::find`. -/
def findGo (pat : Str) : Str → Nat → Option Nat
  | [], i => if pat.isEmpty then some i else none
  | c :: cs, i => if matchAt pat (c :: cs) then some i else findGo pat cs (i + 1)

/-- First match of `pat` in `s` (position relative to the front of `s`). -/
def rfind (pat s : Str) : Option Nat := findGo pat s 0

/-- `s.find(pat, start)`, returning `none` for `npos`: the smallest
`i ≥ start` at which `pat` occurs in `s`. -/
def strFind? (pat s : Str) (start : Nat) : Option Nat :=
  if start ≤ s.length then findGo pat (s.drop start) start else none

/-- `s.find(pat, start)` as the C++ `size_t` value (`NPOS` when absent). -/
def cppFind (pat s : Str) (start : Nat) : Nat := (strFind? pat s start).getD NPOS

/-- `s.substr(pos, count)`: `none` models the `std::out_of_range` throw when
`pos` exceeds the string size; the count is clamped to the tail length. -/
def cppSubstr (s : Str) (pos count : Nat) : Option Str :=
  if pos ≤ s.length then some ((s.drop pos).take count) else none

/-- C `isdigit` on the ASCII range, as relied on by `std::stoi`. -/
def isDigitCh (c : Char) : Bool := 48 ≤ c.toNat && c.toNat ≤ 57

/-- C `isspace`: space and the five control whitespace characters. -/
def isSpaceCh (c : Char) : Bool := c.toNat = 32 || (9 ≤ c.toNat && c.toNat ≤ 13)

/-- Base-10 value of a digit string. -/
def digitsVal (s : Str) : Nat := s.foldl (fun a c => 10 * a + (c.toNat - 48)) 0

/-- Reads a leading run of decimal digits; `none` when there is none
(the case in which `std::stoi` throws `std::invalid_argument`). -/
def readNat (s : Str) : Option Nat :=
  let d := s.takeWhile isDigitCh
  if d.isEmpty then none else some (digitsVal d)

/-- `std::stoi`: skip leading whitespace, read an optional sign and a
nonempty run of digits.  `none` models the thrown exception. -/
def stoi (s : Str) : Option Int :=
  match s.dropWhile isSpaceCh with
  | [] => none
  | c :: cs =>
    if c = '-' then (readNat cs).map (fun n => -(n : Int))
    else if c = '+' then (readNat cs).map (fun n => (n : Int))
    else (readNat (c :: cs)).map (fun n => (n : Int))

/-- Decimal digit character. -/
def digitChar (d : Nat) : Char := Char.ofNat (48 + d)

/-- Digits of `n`, most significant first, accumulated onto `acc`; the
first argument is fuel (any amount exceeding `n` is enough, since `n / 10`
decreases strictly below any starting `n ≥ 10`). -/
def natToStrAux : Nat → Nat → Str → Str
  | 0, _, acc => acc
  | fuel + 1, n, acc =>
    if n < 10 then digitChar n :: acc
    else natToStrAux fuel (n / 10) (digitChar (n % 10) :: acc)

/-- Decimal representation of a natural number, as `std::to_string`. -/
def natToStr (n : Nat) : Str := natToStrAux (n + 1) n []

/-- `std::to_string` on `int`. -/
def intToStr (i : Int) : Str :=
  if i < 0 then '-' :: natToStr (-i).toNat else natToStr i.toNat

/-- One task record: the C++ class `TaskTracker` (field `id` and flag
`isDeleted` are private there; `desc`, `status` and the two timestamps are
public strings). -/
structure TaskTracker where
  id : Int
  desc : Str
  status : Str
  createdAt : Str
  updatedAt : Str
  isDeleted : Bool
deriving DecidableEq

namespace TaskTracker

/-- `TaskTracker::updateDescription(d, u)`: sets `desc = d; updatedAt = u`. -/
def updateDescription (t : TaskTracker) (d u : Str) : TaskTracker :=
  { t with desc := d, updatedAt := u }

/-- `TaskTracker::updateStatus(s, u)`: sets `status = s; updatedAt = u`. -/
def updateStatus (t : TaskTracker) (s u : Str) : TaskTracker :=
  { t with status := s, updatedAt := u }

/-- `TaskTracker::deleteTask()`: sets `isDeleted = true`. -/
def deleteTask (t : TaskTracker) : TaskTracker := { t with isDeleted := true }

end TaskTracker

/-- The pattern `"id":` searched for by the loader. -/
def idPat : Str := ['\"', 'i', 'd', '\"', ':']

/-- The pattern `"description": "` (the loader adds 16 to its position). -/
def descPat : Str :=
  ['\"', 'd', 'e', 's', 'c', 'r', 'i', 'p', 't', 'i', 'o', 'n', '\"', ':', ' ', '\"']

/-- The pattern `"status": "` (the loader adds 11 to its position). -/
def statusPat : Str := ['\"', 's', 't', 'a', 't', 'u', 's', '\"', ':', ' ', '\"']

/-- The pattern `"createdAt": "` (the loader adds 14 to its position). -/
def createdPat : Str :=
  ['\"', 'c', 'r', 'e', 'a', 't', 'e', 'd', 'A', 't', '\"', ':', ' ', '\"']

/-- The pattern `"updatedAt": "` (the loader adds 14 to its position). -/
def updatedPat : Str :=
  ['\"', 'u', 'p', 'd', 'a', 't', 'e', 'd', 'A', 't', '\"', ':', ' ', '\"']

/-- The two-character pattern `[]` whose presence anywhere makes the loader
discard the whole file. -/
def brkPat : Str := ['[', ']']

/-- `"  \x7b\n    "`: the opening of one serialized record in `toJson`. -/
def jOpen : Str := [' ', ' ', '\x7b', '\n', ' ', ' ', ' ', ' ']

/-- `"\"id\": "`: the id field name as written by `toJson`. -/
def idKey : Str := ['\"', 'i', 'd', '\"', ':', ' ']

/-- `",\n    "`: the separator `toJson` writes between fields. -/
def g4 : Str := [',', '\n', ' ', ' ', ' ', ' ']

/-- `"\",\n    "`: closing quote of a string field plus the separator. -/
def quoteG : Str := ['\"', ',', '\n', ' ', ' ', ' ', ' ']

/-- `"\"\n  \x7d"`: closing quote of `updatedAt` plus the record close. -/
def jClose : Str := ['\"', '\n', ' ', ' ', '\x7d']

namespace TaskTracker

/-- `TaskTracker::toJson()`: the serialized record, or the empty string for
a tombstoned record.  This is the C++ concatenation
`"  \x7b\n    \"id\": " + to_string(id) + ",\n" + "    \"description\": \"" +
desc + "\",\n" + "    \"status\": \"" + status + "\",\n" +
"    \"createdAt\": \"" + createdAt + "\",\n" + "    \"updatedAt\": \"" +
updatedAt + "\"\n  \x7d"`, grouped into the named glue constants. -/
def toJson (t : TaskTracker) : Str :=
  if t.isDeleted then [] else
    jOpen ++ idKey ++ intToStr t.id ++ g4 ++
    descPat ++ t.desc ++ quoteG ++
    statusPat ++ t.status ++ quoteG ++
    createdPat ++ t.createdAt ++ quoteG ++
    updatedPat ++ t.updatedAt ++ jClose

end TaskTracker

/-- The body loop of `TaskManager::saveTasks`: skip tombstoned records,
write `",\n"` before every record but the first, then the record's JSON. -/
def saveBody : List TaskTracker → Bool → Str
  | [], _ => []
  | t :: ts, first =>
    if t.isDeleted then saveBody ts first
    else (if first then [] else [',', '\n']) ++ t.toJson ++ saveBody ts false

/-- `TaskManager::saveTasks()` as the file text it writes:
`"[\n"`, the records, `"\n]"`. -/
def saveString (ts : List TaskTracker) : Str :=
  ['[', '\n'] ++ saveBody ts true ++ ['\n', ']']

/-- The `getline` loop of `loadTasks` re-appends `"\n"` after every line, so
the in-memory `content` it builds is the file text with a final newline
appended when the file does not already end in one. -/
def rebuildContent (f : Str) : Str :=
  if f = [] then [] else if f.getLast? = some '\n' then f else f ++ ['\n']

/-- One pass of the `while ((pos = content.find("\"id\":", pos)) != npos)`
loop of `TaskManager::loadTasks`, with explicit fuel.  Each iteration finds
the five fields by substring search exactly as the C++ does (including the
`size_t` wrap when a pattern is absent), pushes the parsed record, raises
`nextId` to `max nextId (id + 1)` and resumes the scan at the closing quote
of `updatedAt`.  `none` models a thrown exception (`stoi` on a non-number,
`substr` past the end) or a scan that never terminates. -/
def loadLoop (content : Str) : Nat → Nat → List TaskTracker → Int →
    Option (List TaskTracker × Int)
  | 0, _, _, _ => none
  | fuel + 1, pos, acc, nid =>
    match strFind? idPat content pos with
    | none => some (acc, nid)
    | some p =>
      let idStart := pAdd (cppFind [':'] content p) 1
      let idEnd := cppFind [','] content idStart
      match cppSubstr content idStart (idEnd - idStart) with
      | none => none
      | some idStr =>
        match stoi idStr with
        | none => none
        | some id =>
          let descStart := pAdd (cppFind descPat content p) 16
          let descEnd := cppFind ['\"'] content descStart
          match cppSubstr content descStart (descEnd - descStart) with
          | none => none
          | some d =>
            let statusStart := pAdd (cppFind statusPat content p) 11
            let statusEnd := cppFind ['\"'] content statusStart
            match cppSubstr content statusStart (statusEnd - statusStart) with
            | none => none
            | some st =>
              let createdStart := pAdd (cppFind createdPat content p) 14
              let createdEnd := cppFind ['\"'] content createdStart
              match cppSubstr content createdStart (createdEnd - createdStart) with
              | none => none
              | some cr =>
                let updatedStart := pAdd (cppFind updatedPat content p) 14
                let updatedEnd := cppFind ['\"'] content updatedStart
                match cppSubstr content updatedStart (updatedEnd - updatedStart) with
                | none => none
                | some up =>
                  loadLoop content fuel updatedEnd
                    (acc ++ [⟨id, d, st, cr, up, false⟩]) (max nid (id + 1))

/-- `TaskManager::loadTasks()` applied to the text of an existing file:
rebuild `content` as the `getline` loop does, return immediately (with the
constructor's empty task list and `nextId = 1`) when `content` is empty or
contains `"[]"` anywhere, and otherwise run the scan loop.  The fuel
`content.length + 2` is enough for every terminating C++ run, because the
scan position takes at most `content.length + 2` distinct values before the
C++ loop either exits or repeats a state (that is, diverges). -/
def loadTasksString (f : Str) : Option (List TaskTracker × Int) :=
  let content := rebuildContent f
  if content.isEmpty || (strFind? brkPat content 0).isSome then some ([], 1)
  else loadLoop content (content.length + 2) 0 [] 1

/-- The `TaskManager`: its task vector, `nextId` counter, and the persisted
file (`none` when `tasks.json` does not exist). -/
structure TaskManager where
  tasks : List TaskTracker
  nextId : Int
  file : Option Str
deriving DecidableEq

/-- Result of one mutating lookup operation: the manager afterwards, whether
a live record with the id was found, and the line printed. -/
structure OpResult where
  mgr : TaskManager
  found : Bool
  msg : Str
deriving DecidableEq

/-- Result of `TaskManager::addTask`. -/
structure AddResult where
  mgr : TaskManager
  newId : Int
  msg : Str
deriving DecidableEq

/-- The `"Task with ID <id> not found"` line. -/
def notFoundMsg (id : Int) : Str :=
  "Task with ID ".data ++ intToStr id ++ " not found".data

/-- The `for (auto& task : tasks)` lookup loop shared by `updateTask`,
`deleteTask`, `markInProgress` and `markDone`: apply `f` to the first record
with the given id that is not tombstoned, report whether one was found. -/
def findAndApply : List TaskTracker → Int → (TaskTracker → TaskTracker) →
    List TaskTracker × Bool
  | [], _, _ => ([], false)
  | t :: ts, i, f =>
    if t.id = i ∧ t.isDeleted = false then (f t :: ts, true)
    else
      let r := findAndApply ts i f
      (t :: r.1, r.2)

namespace TaskManager

/-- `TaskManager` constructor state for a given (possibly absent) file:
an absent file leaves the empty collection and `nextId = 1`; otherwise the
file is parsed, `none` modelling a crash during parsing. -/
def init (file : Option Str) : Option TaskManager :=
  match file with
  | none => some ⟨[], 1, none⟩
  | some f => (loadTasksString f).map (fun r => ⟨r.1, r.2, some f⟩)

/-- `TaskManager::addTask(description)`: new record with `id = nextId++`,
status `todo`, both timestamps `now`; append and save. -/
def addTask (m : TaskManager) (d now : Str) : AddResult :=
  let t : TaskTracker := ⟨m.nextId, d, "todo".data, now, now, false⟩
  { mgr := ⟨m.tasks ++ [t], m.nextId + 1, some (saveString (m.tasks ++ [t]))⟩
    newId := m.nextId
    msg := "Task added successfully (ID: ".data ++ intToStr m.nextId ++ ")".data }

/-- The shared shape of the four mutating lookup operations
(`updateTask`, `deleteTask`, `markInProgress`, `markDone`): run the lookup
loop; on a hit, keep the mutated vector, save it, and print the success
line; on a miss, leave everything unchanged and print the not-found line. -/
def lookupOp (m : TaskManager) (id : Int) (f : TaskTracker → TaskTracker)
    (okMsg : Str) : OpResult :=
  let r := findAndApply m.tasks id f
  if r.2 then ⟨⟨r.1, m.nextId, some (saveString r.1)⟩, true, okMsg⟩
  else ⟨m, false, notFoundMsg id⟩

/-- `TaskManager::updateTask(id, description)`. -/
def updateTask (m : TaskManager) (id : Int) (d now : Str) : OpResult :=
  lookupOp m id (fun t => t.updateDescription d now) "Task updated successfully".data

/-- `TaskManager::deleteTask(id)` (soft delete). -/
def deleteTask (m : TaskManager) (id : Int) : OpResult :=
  lookupOp m id TaskTracker.deleteTask "Task deleted successfully".data

/-- `TaskManager::markInProgress(id)`. -/
def markInProgress (m : TaskManager) (id : Int) (now : Str) : OpResult :=
  lookupOp m id (fun t => t.updateStatus "in-progress".data now)
    "Task marked as in progress".data

/-- `TaskManager::markDone(id)`. -/
def markDone (m : TaskManager) (id : Int) (now : Str) : OpResult :=
  lookupOp m id (fun t => t.updateStatus "done".data now) "Task marked as done".data

end TaskManager

/-- The `if (!task.isTaskDeleted()) task.display()` loop of
`listAllTasks`: the records actually displayed, in vector order. -/
def displayedAll : List TaskTracker → List TaskTracker
  | [] => []
  | t :: ts => if t.isDeleted = false then t :: displayedAll ts else displayedAll ts

/-- The loop of `listTasksByStatus`: records that are not tombstoned and
whose status equals the argument exactly, in vector order. -/
def displayedByStatus (s : Str) : List TaskTracker → List TaskTracker
  | [] => []
  | t :: ts =>
    if t.isDeleted = false ∧ t.status = s then t :: displayedByStatus s ts
    else displayedByStatus s ts

namespace TaskManager

/-- `TaskManager::listAllTasks()` as the sequence of records displayed. -/
def listAllTasks (m : TaskManager) : List TaskTracker := displayedAll m.tasks

/-- `TaskManager::listTasksByStatus(status)` as the records displayed. -/
def listTasksByStatus (m : TaskManager) (s : Str) : List TaskTracker :=
  displayedByStatus s m.tasks

end TaskManager

/-- One command-line invocation's mutating verb, for stating run-long
invariants. -/
inductive Cmd where
  | add (d now : Str)
  | update (id : Int) (d now : Str)
  | del (id : Int)
  | markIP (id : Int) (now : Str)
  | markD (id : Int) (now : Str)

/-- Apply one mutating verb to the manager. -/
def applyCmd (m : TaskManager) : Cmd → TaskManager
  | .add d now => (m.addTask d now).mgr
  | .update id d now => (m.updateTask id d now).mgr
  | .del id => (m.deleteTask id).mgr
  | .markIP id now => (m.markInProgress id now).mgr
  | .markD id now => (m.markDone id now).mgr

/-- Apply a sequence of mutating verbs. -/
def applyCmds (m : TaskManager) (cs : List Cmd) : TaskManager :=
  cs.foldl applyCmd m

/-- Run a sequence of `add` calls, collecting the ids assigned (each call's
`(description, current time)` pair is given). -/
def addAll (m : TaskManager) : List (Str × Str) → TaskManager × List Int
  | [] => (m, [])
  | dn :: rest =>
    let r := m.addTask dn.1 dn.2
    let q := addAll r.mgr rest
    (q.1, r.newId :: q.2)

/-- `main(argc, argv)`: construct the manager (loading the file), dispatch
on `argv[1]`, and return the final manager with the process exit code.
`none` models a crash (a `stoi` exception on a non-numeric id argument, or
an exception while loading the file in the constructor).  Listing commands
do not change the state and exit 0. -/
def runMain (file : Option Str) (argv : List Str) (now : Str) :
    Option (TaskManager × Nat) :=
  match TaskManager.init file with
  | none => none
  | some m =>
    match argv with
    | _prog :: cmd :: args =>
      if cmd = "add".data then
        match args with
        | [] => some (m, 1)
        | d :: _ => some ((m.addTask d now).mgr, 0)
      else if cmd = "update".data then
        match args with
        | idS :: d :: _ =>
          (stoi idS).map (fun id => ((m.updateTask id d now).mgr, 0))
        | _ => some (m, 1)
      else if cmd = "delete".data then
        match args with
        | [] => some (m, 1)
        | idS :: _ => (stoi idS).map (fun id => ((m.deleteTask id).mgr, 0))
      else if cmd = "mark-in-progress".data then
        match args with
        | [] => some (m, 1)
        | idS :: _ => (stoi idS).map (fun id => ((m.markInProgress id now).mgr, 0))
      else if cmd = "mark-done".data then
        match args with
        | [] => some (m, 1)
        | idS :: _ => (stoi idS).map (fun id => ((m.markDone id now).mgr, 0))
      else if cmd = "list".data then some (m, 0)
      else some (m, 1)
    | _ => some (m, 1)

/-- No double-quote character occurs in the string. -/
def noQuote (s : Str) : Prop := ∀ c ∈ s, c ≠ '\"'

/-- The pattern `[]` matches at no position of the string. -/
def NoBrk (s : Str) : Prop := ∀ i : Nat, matchAt brkPat (s.drop i) = false

/-- One serialized record from its opening brace up to (but not including)
the closing quote of its `updatedAt` value; `toJson` of a live record is
`recBlock` followed by `jClose`. -/
def recBlock (t : TaskTracker) : Str :=
  jOpen ++ idKey ++ intToStr t.id ++ g4 ++
  descPat ++ t.desc ++ quoteG ++
  statusPat ++ t.status ++ quoteG ++
  createdPat ++ t.createdAt ++ quoteG ++
  updatedPat ++ t.updatedAt

/-- The rebuilt file content from the closing quote of the previous
record's `updatedAt` value to the end of the content: either the closing
of the list (plus the newline `getline` re-appends), or the record
separator followed by the next record. -/
def tailStr : List TaskTracker → Str
  | [] => '\"' :: ['\n', ' ', ' ', '\x7d', '\n', ']', '\n']
  | t :: ts => ('\"' :: ['\n', ' ', ' ', '\x7d', ',', '\n']) ++ recBlock t ++ tailStr ts

/-- A record whose serialized text the naive loader parses back unchanged:
nonnegative id, no double-quote character and no `[]` substring in any of
the four string fields. -/
def SafeT (t : TaskTracker) : Prop :=
  0 ≤ t.id ∧
  noQuote t.desc ∧ noQuote t.status ∧ noQuote t.createdAt ∧ noQuote t.updatedAt ∧
  (strFind? brkPat t.desc 0).isSome = false ∧
  (strFind? brkPat t.status 0).isSome = false ∧
  (strFind? brkPat t.createdAt 0).isSome = false ∧
  (strFind? brkPat t.updatedAt 0).isSome = false

/-- The id-counter invariant of the store: every id (live or tombstoned)
is below `nextId`. -/
def IdInv (m : TaskManager) : Prop := ∀ t ∈ m.tasks, t.id < m.nextId

/-- Every record carrying the given id is tombstoned. -/
def DeadAt (m : TaskManager) (id : Int) : Prop :=
  ∀ t ∈ m.tasks, t.id = id → t.isDeleted = true

/-! ### Basic list helpers -/

theorem dropLen (X : Str) : ∀ (Y : Str) (k : Nat), (X ++ Y).drop (X.length + k) = Y.drop k := by
  induction X with
  | nil => intro Y k; simp
  | cons c cs ih =>
    intro Y k
    have : (c :: cs).length + k = (cs.length + k) + 1 := by simp [List.length_cons]; omega
    rw [this, List.cons_append]
    simpa using ih Y k

theorem dropLenZero (X Y : Str) : (X ++ Y).drop X.length = Y := by
  have := dropLen X Y 0
  simpa using this

theorem takeLen (X : Str) : ∀ Y : Str, (X ++ Y).take X.length = X := by
  induction X with
  | nil => intro Y; simp
  | cons c cs ih => intro Y; simp [List.take, ih]

theorem posLtOfDropCons {s : Str} {pos : Nat} {c : Char} {r : Str}
    (h : s.drop pos = c :: r) : pos < s.length := by
  by_contra hc
  push_neg at hc
  rw [List.drop_eq_nil_of_le hc] at h
  exact List.noConfusion h

theorem getLastAppend (X : Str) {c : Char} {Y : Str} (h : Y.getLast? = some c) :
    (X ++ Y).getLast? = some c := by
  induction X with
  | nil => simpa using h
  | cons a X' ih =>
    rw [List.cons_append]
    rw [List.getLast?_cons]
    cases Y with
    | nil => simp at h
    | cons b Y' =>
      have hne : X' ++ b :: Y' ≠ [] := by simp
      rw [List.getLast?_eq_getLast _ hne] at ih ⊢
      simpa using ih

/-! ### Lemmas about the substring search -/

theorem matchAt_self (pat y : Str) : matchAt pat (pat ++ y) = true := by
  induction pat with
  | nil => rfl
  | cons p ps ih => simp [matchAt, ih]

theorem matchAt_ext (pat : Str) : ∀ (s y : Str), matchAt pat s = true →
    matchAt pat (s ++ y) = true := by
  induction pat with
  | nil => intro s y _; rfl
  | cons p ps ih =>
    intro s y h
    cases s with
    | nil => simp [matchAt] at h
    | cons c cs =>
      simp only [matchAt] at h ⊢
      by_cases hpc : p = c
      · rw [if_pos hpc] at h ⊢; exact ih cs y h
      · rw [if_neg hpc] at h; exact absurd h (by simp)

theorem matchAt_take_false (pat : Str) : ∀ (X Y : Str),
    matchAt (pat.take X.length) X = false → matchAt pat (X ++ Y) = false := by
  induction pat with
  | nil => intro X Y h; simp [matchAt] at h
  | cons p ps ih =>
    intro X Y h
    cases X with
    | nil => simp [matchAt] at h
    | cons c cs =>
      rw [List.length_cons, List.take_succ_cons] at h
      rw [List.cons_append]
      simp only [matchAt] at h ⊢
      by_cases hpc : p = c
      · rw [if_pos hpc] at h ⊢; exact ih cs Y h
      · rw [if_neg hpc]

theorem findGo_shift (pat : Str) : ∀ (s : Str) (i : Nat),
    findGo pat s i = (findGo pat s 0).map (· + i) := by
  intro s
  induction s with
  | nil =>
    intro i
    by_cases h : pat.isEmpty <;> simp [findGo, h]
  | cons c cs ih =>
    intro i
    by_cases h : matchAt pat (c :: cs) = true
    · simp [findGo, h]
    · rw [Bool.not_eq_true] at h
      simp only [findGo, h, Bool.false_eq_true, if_false, if_neg]
      rw [ih (i + 1), ih 1]
      cases findGo pat cs 0 with
      | none => simp
      | some a => simp; omega

theorem rfind_match {pat s : Str} (h : matchAt pat s = true) : rfind pat s = some 0 := by
  cases s with
  | nil =>
    cases pat with
    | nil => rfl
    | cons p ps => simp [matchAt] at h
  | cons c cs => simp [rfind, findGo, h]

theorem rfind_cons_miss {pat : Str} {c : Char} {y : Str}
    (h : matchAt pat (c :: y) = false) :
    rfind pat (c :: y) = (rfind pat y).map (· + 1) := by
  simp only [rfind, findGo, h, Bool.false_eq_true, if_false, if_neg]
  exact findGo_shift pat y 1

theorem rfind_skip_pred (p : Char) (ps : Str) : ∀ (X Y : Str),
    (∀ c ∈ X, c ≠ p) →
    rfind (p :: ps) (X ++ Y) = (rfind (p :: ps) Y).map (· + X.length) := by
  intro X
  induction X with
  | nil => intro Y _; simp
  | cons c cs ih =>
    intro Y h
    have hcp : c ≠ p := h c (by simp)
    have hmiss : matchAt (p :: ps) (c :: (cs ++ Y)) = false := by
      simp only [matchAt]
      rw [if_neg (fun he => hcp he.symm)]
    rw [List.cons_append, rfind_cons_miss hmiss,
      ih Y (fun d hd => h d (by simp [hd]))]
    cases rfind (p :: ps) Y with
    | none => simp
    | some a => simp [List.length_cons]; omega

theorem rfind_skip_all (pat : Str) : ∀ (X Y : Str),
    (∀ i, i < X.length → matchAt (pat.take (X.length - i)) (X.drop i) = false) →
    rfind pat (X ++ Y) = (rfind pat Y).map (· + X.length) := by
  intro X
  induction X with
  | nil => intro Y _; simp
  | cons c cs ih =>
    intro Y h
    have h0 := h 0 (by simp)
    rw [List.drop_zero, Nat.sub_zero] at h0
    have hmiss : matchAt pat ((c :: cs) ++ Y) = false := matchAt_take_false pat _ Y h0
    rw [List.cons_append] at hmiss ⊢
    rw [rfind_cons_miss hmiss, ih Y (fun i hi => by
      have := h (i + 1) (by simp; omega)
      simpa using this)]
    cases rfind pat Y with
    | none => simp
    | some a => simp [List.length_cons]; omega

theorem matchQ (t R' : Str) : ∀ (n₁ D : Str), (∀ a ∈ n₁, a ≠ '\"') → (∀ a ∈ D, a ≠ '\"') →
    matchAt (n₁ ++ '\"' :: t) (D ++ '\"' :: R') = true → n₁ = D ∧ matchAt t R' = true := by
  intro n₁
  induction n₁ with
  | nil =>
    intro D hn hD h
    cases D with
    | nil =>
      simp only [List.nil_append, matchAt, if_pos rfl] at h
      exact ⟨rfl, h⟩
    | cons d D' =>
      simp only [List.nil_append, List.cons_append, matchAt] at h
      by_cases hq : '\"' = d
      · exact absurd hq.symm (hD d (by simp))
      · rw [if_neg hq] at h; exact absurd h (by simp)
  | cons a n' ih =>
    intro D hn hD h
    cases D with
    | nil =>
      simp only [List.cons_append, List.nil_append, matchAt] at h
      by_cases hq : a = '\"'
      · exact absurd hq (hn a (by simp))
      · rw [if_neg hq] at h; exact absurd h (by simp)
    | cons d D' =>
      simp only [List.cons_append, matchAt] at h
      by_cases had : a = d
      · rw [if_pos had] at h
        have := ih D' (fun b hb => hn b (by simp [hb])) (fun b hb => hD b (by simp [hb])) h
        exact ⟨by rw [had, this.1], this.2⟩
      · rw [if_neg had] at h; exact absurd h (by simp)

theorem fieldSkip (a : Char) (n' t' : Str) (x : Char) (D R : Str) (c : Char)
    (hn : ∀ b ∈ a :: n', b ≠ '\"') (hD : ∀ b ∈ D, b ≠ '\"')
    (ha : a ≠ c) (hx : x ≠ c) :
    rfind ('\"' :: ((a :: n') ++ '\"' :: (x :: t'))) ('\"' :: (D ++ '\"' :: (c :: R)))
      = (rfind ('\"' :: ((a :: n') ++ '\"' :: (x :: t'))) (c :: R)).map
          (· + (2 + D.length)) := by
  have hmiss0 : matchAt ('\"' :: ((a :: n') ++ '\"' :: (x :: t')))
      ('\"' :: (D ++ '\"' :: (c :: R))) = false := by
    simp only [matchAt, if_pos rfl]
    by_contra hb
    rw [Bool.not_eq_false] at hb
    have := matchQ (x :: t') (c :: R) (a :: n') D hn hD hb
    have hx2 : matchAt (x :: t') (c :: R) = true := this.2
    simp only [matchAt] at hx2
    rw [if_neg hx] at hx2
    exact absurd hx2 (by simp)
  rw [rfind_cons_miss hmiss0]
  rw [rfind_skip_pred '\"' _ D _ hD]
  have hmiss1 : matchAt ('\"' :: ((a :: n') ++ '\"' :: (x :: t'))) ('\"' :: (c :: R)) = false := by
    rw [List.cons_append]
    simp only [matchAt, if_true]
    rw [if_neg ha]
  rw [rfind_cons_miss hmiss1]
  cases rfind ('\"' :: ((a :: n') ++ '\"' :: (x :: t'))) (c :: R) with
  | none => simp
  | some v => simp; omega

theorem findGo_none_of_no_match (pat : Str) : ∀ (s : Str) (j : Nat),
    (∀ i, matchAt pat (s.drop i) = false) → findGo pat s j = none := by
  intro s
  induction s with
  | nil =>
    intro j h
    have h0 := h 0
    simp only [List.drop_nil] at h0
    have : ¬pat.isEmpty = true := by
      intro he
      rw [List.isEmpty_iff] at he
      subst he
      simp [matchAt] at h0
    simp [findGo, this]
  | cons c cs ih =>
    intro j h
    have h0 := h 0
    rw [List.drop_zero] at h0
    simp only [findGo, h0, Bool.false_eq_true, if_false, if_neg]
    exact ih (j + 1) (fun i => by simpa using h (i + 1))

theorem findGo_some_match (pat : Str) : ∀ (s : Str) (j k : Nat),
    findGo pat s j = some k → j ≤ k ∧ matchAt pat (s.drop (k - j)) = true := by
  intro s
  induction s with
  | nil =>
    intro j k h
    simp only [findGo] at h
    by_cases he : pat.isEmpty
    · rw [if_pos he] at h
      rw [List.isEmpty_iff] at he
      injection h with h
      subst h he
      simp [matchAt]
    · rw [if_neg he] at h; exact absurd h (by simp)
  | cons c cs ih =>
    intro j k h
    simp only [findGo] at h
    by_cases hm : matchAt pat (c :: cs) = true
    · rw [if_pos hm] at h
      injection h with h
      subst h
      simpa using hm
    · rw [Bool.not_eq_true] at hm
      rw [hm] at h
      simp only [Bool.false_eq_true, if_false, if_neg] at h
      have := ih (j + 1) k h
      refine ⟨by omega, ?_⟩
      have hk : k - j = (k - (j + 1)) + 1 := by omega
      rw [hk, List.drop_succ_cons]
      exact this.2
/-! ### Lifting `strFind?` to suffix scans -/

theorem strFind?_eq {pat s : Str} {pos : Nat} (h : pos ≤ s.length) :
    strFind? pat s pos = (rfind pat (s.drop pos)).map (· + pos) := by
  rw [strFind?, if_pos h, findGo_shift]
  rfl

theorem strFind?_gt {pat s : Str} {pos : Nat} (h : s.length < pos) :
    strFind? pat s pos = none := by
  rw [strFind?, if_neg (by omega)]

theorem findGo_none_no_match (pat : Str) : ∀ (s : Str) (j : Nat),
    findGo pat s j = none → ∀ i, matchAt pat (s.drop i) = false := by
  intro s
  induction s with
  | nil =>
    intro j h i
    simp only [findGo] at h
    by_cases he : pat.isEmpty
    · rw [if_pos he] at h; exact Option.noConfusion h
    · rw [List.drop_nil]
      cases pat with
      | nil => simp at he
      | cons p ps => rfl
  | cons c cs ih =>
    intro j h i
    simp only [findGo] at h
    by_cases hm : matchAt pat (c :: cs) = true
    · rw [if_pos hm] at h; exact Option.noConfusion h
    · rw [Bool.not_eq_true] at hm
      rw [hm] at h
      simp only [Bool.false_eq_true, if_false] at h
      cases i with
      | zero => rw [List.drop_zero]; exact hm
      | succ i' => rw [List.drop_succ_cons]; exact ih (j + 1) h i'

theorem strFind?_isSome_iff (pat s : Str) :
    (strFind? pat s 0).isSome = true ↔ ∃ i, matchAt pat (s.drop i) = true := by
  rw [strFind?, if_pos (Nat.zero_le _), List.drop_zero]
  constructor
  · intro h
    cases hf : findGo pat s 0 with
    | none => rw [hf] at h; simp at h
    | some k =>
      refine ⟨k, ?_⟩
      have := (findGo_some_match pat s 0 k hf).2
      simpa using this
  · intro ⟨i, hi⟩
    cases hf : findGo pat s 0 with
    | some k => simp
    | none =>
      rw [findGo_none_no_match pat s 0 hf i] at hi
      exact absurd hi (by simp)

/-! ### Decimal printing and `stoi` -/

theorem digitChar_toNat {d : Nat} (h : d < 10) : (digitChar d).toNat = 48 + d := by
  interval_cases d <;> rfl

theorem isDigitCh_digitChar {d : Nat} (h : d < 10) : isDigitCh (digitChar d) = true := by
  rw [isDigitCh, digitChar_toNat h]
  simp
  omega

theorem natToStrAux_irrel : ∀ (fuel n : Nat) (acc : Str), n < fuel →
    ∀ fuel', n < fuel' → natToStrAux fuel n acc = natToStrAux fuel' n acc := by
  intro fuel
  induction fuel with
  | zero => intro n acc h; omega
  | succ fuel ih =>
    intro n acc h fuel' h'
    cases fuel' with
    | zero => omega
    | succ fuel' =>
      simp only [natToStrAux]
      by_cases h10 : n < 10
      · rw [if_pos h10, if_pos h10]
      · rw [if_neg h10, if_neg h10]
        have hdiv : n / 10 < n := Nat.div_lt_self (by omega) (by omega)
        exact ih (n / 10) _ (by omega) fuel' (by omega)

theorem natToStrAux_acc : ∀ (fuel n : Nat) (acc : Str), n < fuel →
    natToStrAux fuel n acc = natToStrAux fuel n [] ++ acc := by
  intro fuel
  induction fuel with
  | zero => intro n acc h; omega
  | succ fuel ih =>
    intro n acc h
    simp only [natToStrAux]
    by_cases h10 : n < 10
    · rw [if_pos h10, if_pos h10]
      rfl
    · rw [if_neg h10, if_neg h10]
      have hdiv : n / 10 < n := Nat.div_lt_self (by omega) (by omega)
      rw [ih (n / 10) _ (by omega), ih (n / 10) [digitChar (n % 10)] (by omega)]
      simp

theorem natToStr_unfold (n : Nat) : natToStr n =
    if n < 10 then [digitChar n]
    else natToStr (n / 10) ++ [digitChar (n % 10)] := by
  rw [natToStr]
  simp only [natToStrAux]
  by_cases h : n < 10
  · rw [if_pos h, if_pos h]
  · rw [if_neg h, if_neg h]
    have hdiv : n / 10 < n := Nat.div_lt_self (by omega) (by omega)
    rw [natToStrAux_irrel n (n / 10) _ (by omega) (n / 10 + 1) (by omega)]
    rw [natToStrAux_acc (n / 10 + 1) (n / 10) _ (by omega)]
    rfl

theorem natToStr_ne_nil (n : Nat) : natToStr n ≠ [] := by
  rw [natToStr_unfold]
  by_cases h : n < 10
  · rw [if_pos h]; simp
  · rw [if_neg h]; simp

theorem natToStr_digits (n : Nat) : ∀ c ∈ natToStr n, isDigitCh c = true := by
  induction n using Nat.strong_induction_on with
  | _ n ih =>
    intro c hc
    rw [natToStr_unfold] at hc
    by_cases h : n < 10
    · rw [if_pos h] at hc
      simp at hc
      rw [hc]
      exact isDigitCh_digitChar h
    · rw [if_neg h] at hc
      rw [List.mem_append] at hc
      cases hc with
      | inl hc => exact ih (n / 10) (Nat.div_lt_self (by omega) (by omega)) c hc
      | inr hc =>
        simp at hc
        rw [hc]
        exact isDigitCh_digitChar (Nat.mod_lt _ (by omega))

theorem digitsVal_snoc (xs : Str) (c : Char) :
    digitsVal (xs ++ [c]) = 10 * digitsVal xs + (c.toNat - 48) := by
  rw [digitsVal, digitsVal, List.foldl_append]
  rfl

theorem digitsVal_natToStr (n : Nat) : digitsVal (natToStr n) = n := by
  induction n using Nat.strong_induction_on with
  | _ n ih =>
    by_cases h : n < 10
    · rw [natToStr_unfold, if_pos h, digitsVal]
      simp [List.foldl]
      rw [digitChar_toNat h]
      omega
    · rw [natToStr_unfold, if_neg h]
      rw [digitsVal_snoc, ih (n / 10) (Nat.div_lt_self (by omega) (by omega))]
      rw [digitChar_toNat (Nat.mod_lt _ (by omega))]
      omega

theorem digit_not_space {c : Char} (h : isDigitCh c = true) : isSpaceCh c = false := by
  rw [isDigitCh] at h
  rw [isSpaceCh]
  simp at h ⊢
  omega

theorem digit_ne {c : Char} (h : isDigitCh c = true) {d : Char} (hd : d.toNat < 48) :
    c ≠ d := by
  intro he
  subst he
  rw [isDigitCh] at h
  simp at h
  omega

theorem takeWhile_all {p : Char → Bool} : ∀ s : Str, (∀ c ∈ s, p c = true) →
    s.takeWhile p = s := by
  intro s
  induction s with
  | nil => intro _; rfl
  | cons c cs ih =>
    intro h
    rw [List.takeWhile_cons, if_pos (h c (by simp))]
    rw [ih (fun d hd => h d (by simp [hd]))]

theorem readNat_natToStr (k : Nat) : readNat (natToStr k) = some k := by
  simp only [readNat]
  rw [takeWhile_all (natToStr k) (natToStr_digits k)]
  rw [if_neg (by simp [List.isEmpty_iff, natToStr_ne_nil k])]
  rw [digitsVal_natToStr]

theorem stoi_space_digits (k : Nat) : stoi (' ' :: natToStr k) = some (k : Int) := by
  obtain ⟨d, rest, hd⟩ : ∃ d rest, natToStr k = d :: rest := by
    cases hnk : natToStr k with
    | nil => exact absurd hnk (natToStr_ne_nil k)
    | cons d rest => exact ⟨d, rest, rfl⟩
  have hdig : isDigitCh d = true := by
    apply natToStr_digits k
    rw [hd]; simp
  have hdw : (' ' :: natToStr k).dropWhile isSpaceCh = d :: rest := by
    rw [List.dropWhile_cons, if_pos (by decide), hd, List.dropWhile_cons,
      if_neg (by rw [digit_not_space hdig]; simp)]
  simp only [stoi, hdw]
  rw [if_neg (digit_ne hdig (by decide)), if_neg (digit_ne hdig (by decide))]
  rw [← hd, readNat_natToStr]
  rfl

/-! ### The scan-loop counter invariant -/

theorem loadLoop_inv (content : Str) : ∀ (fuel pos : Nat) (acc : List TaskTracker)
    (nid : Int) (ts : List TaskTracker) (n : Int),
    (∀ t ∈ acc, t.id < nid) →
    loadLoop content fuel pos acc nid = some (ts, n) →
    (∀ t ∈ ts, t.id < n) ∧ nid ≤ n := by
  intro fuel
  induction fuel with
  | zero =>
    intro pos acc nid ts n hacc h
    exact absurd h (by simp [loadLoop])
  | succ fuel ih =>
    intro pos acc nid ts n hacc h
    simp only [loadLoop] at h
    split at h
    · rw [Option.some.injEq, Prod.mk.injEq] at h
      obtain ⟨rfl, rfl⟩ := h
      exact ⟨hacc, le_refl _⟩
    · split at h
      · exact absurd h (by simp)
      · split at h
        · exact absurd h (by simp)
        · split at h
          · exact absurd h (by simp)
          · split at h
            · exact absurd h (by simp)
            · split at h
              · exact absurd h (by simp)
              · split at h
                · exact absurd h (by simp)
                · have H := ih _ _ _ _ _ ?_ h
                  · exact ⟨H.1, le_trans (le_max_left _ _) H.2⟩
                  · intro t ht
                    rw [List.mem_append] at ht
                    cases ht with
                    | inl ht => exact lt_of_lt_of_le (hacc t ht) (le_max_left _ _)
                    | inr ht =>
                      simp only [List.mem_singleton] at ht
                      subst ht
                      exact lt_of_lt_of_le (lt_add_one _) (le_max_right _ _)

theorem loadTasksString_inv {f : Str} {ts : List TaskTracker} {nid : Int}
    (h : loadTasksString f = some (ts, nid)) :
    (∀ t ∈ ts, t.id < nid) ∧ 1 ≤ nid := by
  simp only [loadTasksString] at h
  split at h
  · rw [Option.some.injEq, Prod.mk.injEq] at h
    obtain ⟨rfl, rfl⟩ := h
    exact ⟨by simp, le_refl _⟩
  · exact loadLoop_inv _ _ _ _ _ _ _ (by simp) h

/-! ### The lookup loop -/

theorem findAndApply_not_found_iff : ∀ (ts : List TaskTracker) (i : Int)
    (f : TaskTracker → TaskTracker),
    (findAndApply ts i f).2 = false ↔ ∀ t ∈ ts, ¬(t.id = i ∧ t.isDeleted = false) := by
  intro ts i f
  induction ts with
  | nil => simp [findAndApply]
  | cons t ts ih =>
    by_cases h : t.id = i ∧ t.isDeleted = false
    · rw [findAndApply, if_pos h]
      simp [h]
    · rw [findAndApply, if_neg h]
      simp only [List.mem_cons]
      constructor
      · intro hf u hu
        cases hu with
        | inl hu => rw [hu]; exact h
        | inr hu => exact (ih.mp hf) u hu
      · intro hall
        exact ih.mpr (fun u hu => hall u (Or.inr hu))

theorem findAndApply_not_found_frame : ∀ (ts : List TaskTracker) (i : Int)
    (f : TaskTracker → TaskTracker),
    (findAndApply ts i f).2 = false → (findAndApply ts i f).1 = ts := by
  intro ts i f
  induction ts with
  | nil => intro _; rfl
  | cons t ts ih =>
    intro hf
    by_cases h : t.id = i ∧ t.isDeleted = false
    · rw [findAndApply, if_pos h] at hf
      exact absurd hf (by simp)
    · rw [findAndApply, if_neg h] at hf ⊢
      simp only at hf ⊢
      rw [ih hf]

theorem findAndApply_found_decomp : ∀ (ts : List TaskTracker) (i : Int)
    (f : TaskTracker → TaskTracker),
    (findAndApply ts i f).2 = true →
    ∃ pre t post, ts = pre ++ t :: post ∧ t.id = i ∧ t.isDeleted = false ∧
      (∀ u ∈ pre, ¬(u.id = i ∧ u.isDeleted = false)) ∧
      (findAndApply ts i f).1 = pre ++ f t :: post := by
  intro ts i f
  induction ts with
  | nil => intro h; exact absurd h (by simp [findAndApply])
  | cons t ts ih =>
    intro hf
    by_cases h : t.id = i ∧ t.isDeleted = false
    · exact ⟨[], t, ts, rfl, h.1, h.2, by simp, by rw [findAndApply, if_pos h]; simp⟩
    · rw [findAndApply, if_neg h] at hf
      simp only at hf
      obtain ⟨pre, u, post, heq, hid, hlive, hpre, hres⟩ := ih hf
      refine ⟨t :: pre, u, post, by rw [heq, List.cons_append], hid, hlive, ?_, ?_⟩
      · intro v hv
        cases List.mem_cons.mp hv with
        | inl hv => rw [hv]; exact h
        | inr hv => exact hpre v hv
      · rw [findAndApply, if_neg h]
        simp only
        rw [hres, List.cons_append]

/-! ### The shared lookup operation -/

theorem lookupOp_found (m : TaskManager) (id : Int) (f : TaskTracker → TaskTracker)
    (okMsg : Str) :
    (TaskManager.lookupOp m id f okMsg).found = (findAndApply m.tasks id f).2 := by
  simp only [TaskManager.lookupOp]
  by_cases hr : (findAndApply m.tasks id f).2 = true
  · rw [if_pos hr, hr]
  · rw [if_neg hr]
    rw [Bool.not_eq_true] at hr
    rw [hr]

theorem lookupOp_miss (m : TaskManager) (id : Int) (f : TaskTracker → TaskTracker)
    (okMsg : Str) (h : (findAndApply m.tasks id f).2 = false) :
    TaskManager.lookupOp m id f okMsg = ⟨m, false, notFoundMsg id⟩ := by
  simp only [TaskManager.lookupOp]
  rw [if_neg (by rw [h]; simp)]

theorem lookupOp_hit (m : TaskManager) (id : Int) (f : TaskTracker → TaskTracker)
    (okMsg : Str) (h : (findAndApply m.tasks id f).2 = true) :
    TaskManager.lookupOp m id f okMsg =
      ⟨⟨(findAndApply m.tasks id f).1, m.nextId,
        some (saveString (findAndApply m.tasks id f).1)⟩, true, okMsg⟩ := by
  simp only [TaskManager.lookupOp]
  rw [if_pos h]

/-! ### Claims on record-level mutators and failure atomicity -/

/-- C5: `updateDescription` sets the description and `updatedAt` (to the
time it is given, which the manager always passes as the current time) and
leaves `id`, `status`, `createdAt` and the tombstone unchanged;
`updateStatus` (used by mark-in-progress and mark-done) sets the status and
`updatedAt` and leaves `id`, `desc`, `createdAt` and the tombstone
unchanged.  In particular `createdAt` is never altered after creation. -/
theorem C5_mutators_frame (t : TaskTracker) (d s u : Str) :
    (t.updateDescription d u).desc = d ∧
    (t.updateDescription d u).updatedAt = u ∧
    (t.updateDescription d u).id = t.id ∧
    (t.updateDescription d u).status = t.status ∧
    (t.updateDescription d u).createdAt = t.createdAt ∧
    (t.updateDescription d u).isDeleted = t.isDeleted ∧
    (t.updateStatus s u).status = s ∧
    (t.updateStatus s u).updatedAt = u ∧
    (t.updateStatus s u).id = t.id ∧
    (t.updateStatus s u).desc = t.desc ∧
    (t.updateStatus s u).createdAt = t.createdAt ∧
    (t.updateStatus s u).isDeleted = t.isDeleted :=
  ⟨rfl, rfl, rfl, rfl, rfl, rfl, rfl, rfl, rfl, rfl, rfl, rfl⟩

/-- C6: `deleteTask` on a record sets the tombstone flag and changes no
other field; in particular it does not refresh `updatedAt`. -/
theorem C6_markDeleted_frame (t : TaskTracker) :
    (TaskTracker.deleteTask t).isDeleted = true ∧
    (TaskTracker.deleteTask t).id = t.id ∧
    (TaskTracker.deleteTask t).desc = t.desc ∧
    (TaskTracker.deleteTask t).status = t.status ∧
    (TaskTracker.deleteTask t).createdAt = t.createdAt ∧
    (TaskTracker.deleteTask t).updatedAt = t.updatedAt :=
  ⟨rfl, rfl, rfl, rfl, rfl, rfl⟩

/-- C9: whenever `updateTask`, `deleteTask`, `markInProgress` or `markDone`
misses (reports not found), the whole manager — task vector, counter and
persisted file — is exactly what it was, and the not-found line is the only
output; in particular no save is performed. -/
theorem C9_miss_atomic (m : TaskManager) (id : Int) (d now : Str) :
    ((m.updateTask id d now).found = false →
      m.updateTask id d now = ⟨m, false, notFoundMsg id⟩) ∧
    ((m.deleteTask id).found = false →
      m.deleteTask id = ⟨m, false, notFoundMsg id⟩) ∧
    ((m.markInProgress id now).found = false →
      m.markInProgress id now = ⟨m, false, notFoundMsg id⟩) ∧
    ((m.markDone id now).found = false →
      m.markDone id now = ⟨m, false, notFoundMsg id⟩) := by
  refine ⟨fun h => ?_, fun h => ?_, fun h => ?_, fun h => ?_⟩
  · rw [TaskManager.updateTask] at h ⊢
    rw [lookupOp_found] at h
    exact lookupOp_miss _ _ _ _ h
  · rw [TaskManager.deleteTask] at h ⊢
    rw [lookupOp_found] at h
    exact lookupOp_miss _ _ _ _ h
  · rw [TaskManager.markInProgress] at h ⊢
    rw [lookupOp_found] at h
    exact lookupOp_miss _ _ _ _ h
  · rw [TaskManager.markDone] at h ⊢
    rw [lookupOp_found] at h
    exact lookupOp_miss _ _ _ _ h

/-- Witness for C9 at a concrete store: `update 99 "x"` and the other three
verbs on a store holding only task 1 leave the store untouched. -/
theorem C9_miss_atomic_witness :
    (TaskManager.mk [⟨1, "Buy milk".data, "todo".data, "T".data, "T".data, false⟩] 2
        none).updateTask 99 "x".data "U".data =
      ⟨TaskManager.mk [⟨1, "Buy milk".data, "todo".data, "T".data, "T".data, false⟩] 2
        none, false, notFoundMsg 99⟩ := by
  exact (C9_miss_atomic
    (TaskManager.mk [⟨1, "Buy milk".data, "todo".data, "T".data, "T".data, false⟩] 2 none)
    99 "x".data "U".data).1 (by decide)

/-! ### Listing -/

theorem displayedByStatus_eq_filter (s : Str) : ∀ ts : List TaskTracker,
    displayedByStatus s ts =
      ts.filter (fun t => decide (t.isDeleted = false ∧ t.status = s)) := by
  intro ts
  induction ts with
  | nil => rfl
  | cons t ts ih =>
    by_cases h : t.isDeleted = false ∧ t.status = s
    · rw [displayedByStatus, if_pos h, List.filter_cons, if_pos (decide_eq_true h), ih]
    · rw [displayedByStatus, if_neg h, List.filter_cons,
        if_neg (by rw [decide_eq_false h]; simp), ih]

theorem displayedAll_eq_filter : ∀ ts : List TaskTracker,
    displayedAll ts = ts.filter (fun t => decide (t.isDeleted = false)) := by
  intro ts
  induction ts with
  | nil => rfl
  | cons t ts ih =>
    by_cases h : t.isDeleted = false
    · rw [displayedAll, if_pos h, List.filter_cons, if_pos (decide_eq_true h), ih]
    · rw [displayedAll, if_neg h, List.filter_cons,
        if_neg (by rw [decide_eq_false h]; simp), ih]

/-- C8: `listTasksByStatus(status)` displays exactly the records that are
not tombstoned and whose status string equals the argument character for
character (stated as the filter of the task vector), each displayed record
is a live record of the vector with that exact status and conversely, the
output is a sublist of the vector (insertion order is preserved), and a
status string matching no live record yields the empty output (the code
then merely prints a "No tasks found" line; it is not an error). -/
theorem C8_listByStatus (m : TaskManager) (s : Str) :
    m.listTasksByStatus s =
      m.tasks.filter (fun t => decide (t.isDeleted = false ∧ t.status = s)) ∧
    (∀ t, t ∈ m.listTasksByStatus s ↔
      t ∈ m.tasks ∧ t.isDeleted = false ∧ t.status = s) ∧
    (m.listTasksByStatus s).Sublist m.tasks ∧
    ((∀ t ∈ m.tasks, ¬(t.isDeleted = false ∧ t.status = s)) →
      m.listTasksByStatus s = []) := by
  have hf := displayedByStatus_eq_filter s m.tasks
  refine ⟨hf, ?_, ?_, ?_⟩
  · intro t
    rw [TaskManager.listTasksByStatus, hf, List.mem_filter]
    simp
  · rw [TaskManager.listTasksByStatus, hf]
    exact List.filter_sublist _
  · intro hnone
    rw [TaskManager.listTasksByStatus, hf]
    rw [List.filter_eq_nil_iff]
    intro t ht
    rw [decide_eq_false (hnone t ht)]
    simp

/-- Witness for C8: on a two-task store the filter clause and the
empty-result clause evaluate as stated for the unused status `blocked`. -/
theorem C8_listByStatus_witness :
    (TaskManager.mk [⟨1, "a".data, "todo".data, "T".data, "T".data, false⟩,
        ⟨2, "b".data, "done".data, "T".data, "T".data, false⟩] 3
        none).listTasksByStatus "blocked".data = [] := by
  refine (C8_listByStatus
    (TaskManager.mk [⟨1, "a".data, "todo".data, "T".data, "T".data, false⟩,
      ⟨2, "b".data, "done".data, "T".data, "T".data, false⟩] 3 none)
    "blocked".data).2.2.2 (by decide)

/-! ### Claim C3: update -/

/-- C3: `updateTask(id, description)` reports not found exactly when the
vector holds no live record with that id; on a miss the manager (vector,
counter, file) is unchanged and the not-found line is printed; on a hit the
vector decomposes around the first live record with that id, which gets the
new description and the current time as `updatedAt` (all its other fields
unchanged, by `C5_mutators_frame`), the whole collection is saved to the
file, `nextId` is untouched, and the success line is printed. -/
theorem C3_updateTask (m : TaskManager) (id : Int) (d now : Str) :
    ((m.updateTask id d now).found = false ↔
      ∀ t ∈ m.tasks, ¬(t.id = id ∧ t.isDeleted = false)) ∧
    ((m.updateTask id d now).found = false →
      m.updateTask id d now = ⟨m, false, notFoundMsg id⟩) ∧
    ((m.updateTask id d now).found = true →
      ∃ pre t post, m.tasks = pre ++ t :: post ∧ t.id = id ∧ t.isDeleted = false ∧
        (∀ u ∈ pre, ¬(u.id = id ∧ u.isDeleted = false)) ∧
        m.updateTask id d now =
          ⟨⟨pre ++ t.updateDescription d now :: post, m.nextId,
            some (saveString (pre ++ t.updateDescription d now :: post))⟩, true,
            "Task updated successfully".data⟩) := by
  rw [TaskManager.updateTask]
  refine ⟨?_, ?_, ?_⟩
  · rw [lookupOp_found]
    exact findAndApply_not_found_iff m.tasks id _
  · intro h
    rw [lookupOp_found] at h
    exact lookupOp_miss _ _ _ _ h
  · intro h
    rw [lookupOp_found] at h
    obtain ⟨pre, t, post, heq, hid, hlive, hpre, hres⟩ :=
      findAndApply_found_decomp m.tasks id (fun t => t.updateDescription d now) h
    refine ⟨pre, t, post, heq, hid, hlive, hpre, ?_⟩
    rw [lookupOp_hit _ _ _ _ h, hres]

/-- Witness for C3: on a one-task store, updating id 1 hits that record
and updating id 99 misses, as the theorem states at this concrete input. -/
theorem C3_updateTask_witness :
    ((TaskManager.mk [⟨1, "a".data, "todo".data, "T".data, "T".data, false⟩] 2
        none).updateTask 99 "x".data "U".data =
      ⟨TaskManager.mk [⟨1, "a".data, "todo".data, "T".data, "T".data, false⟩] 2 none,
        false, notFoundMsg 99⟩) ∧
    ((TaskManager.mk [⟨1, "a".data, "todo".data, "T".data, "T".data, false⟩] 2
        none).updateTask 1 "x".data "U".data).found = true := by
  constructor
  · exact (C3_updateTask
      (TaskManager.mk [⟨1, "a".data, "todo".data, "T".data, "T".data, false⟩] 2 none)
      99 "x".data "U".data).2.1 (by decide)
  · decide

/-! ### Claim C10: the bracket check -/

/-- C10: whenever the persistence file's text contains the two-character
substring `[]` anywhere — the check is a plain substring search over the
whole rebuilt content, so an occurrence inside a stored description counts —
`loadTasks` returns immediately, keeping the constructor's empty collection
and `nextId = 1` and discarding every record in the file. -/
theorem C10_brackets_discard (f : Str) (h : (strFind? brkPat f 0).isSome = true) :
    loadTasksString f = some ([], 1) := by
  obtain ⟨i, hi⟩ := (strFind?_isSome_iff _ _).mp h
  have hif : i ≤ f.length := by
    by_contra hc
    push_neg at hc
    rw [List.drop_eq_nil_of_le (le_of_lt hc)] at hi
    simp [brkPat, matchAt] at hi
  have hcontent : (strFind? brkPat (rebuildContent f) 0).isSome = true := by
    rw [rebuildContent]
    by_cases hnil : f = []
    · subst hnil
      simp only [List.drop_nil] at hi
      simp [brkPat, matchAt] at hi
    · rw [if_neg hnil]
      by_cases hlast : f.getLast? = some '\n'
      · rw [if_pos hlast]; exact h
      · rw [if_neg hlast]
        rw [strFind?_isSome_iff]
        refine ⟨i, ?_⟩
        rw [List.drop_append_of_le_length hif]
        exact matchAt_ext _ _ _ hi
  simp only [loadTasksString]
  rw [if_pos (by rw [hcontent]; simp)]

/-- Witness for C10: a saved store whose only record has description
`a[]b` contains `[]`, and reloading it discards the record. -/
theorem C10_brackets_discard_witness :
    loadTasksString
      (saveString [⟨1, "a[]b".data, "todo".data, "T".data, "T".data, false⟩]) =
      some ([], 1) :=
  C10_brackets_discard _ (by decide)

/-! ### Claim C2: id assignment -/

theorem addAll_ids (xs : List (Str × Str)) : ∀ m : TaskManager,
    (addAll m xs).2 = (List.range xs.length).map (fun k : Nat => m.nextId + (k : Int)) ∧
    (addAll m xs).1.nextId = m.nextId + xs.length := by
  induction xs with
  | nil => intro m; simp [addAll]
  | cons dn xs ih =>
    intro m
    rw [addAll]
    simp only
    obtain ⟨h1, h2⟩ := ih (m.addTask dn.1 dn.2).mgr
    have hmgr : ((m.addTask dn.1 dn.2).mgr).nextId = m.nextId + 1 := rfl
    constructor
    · rw [h1, hmgr, List.length_cons, List.range_succ_eq_map, List.map_cons,
        List.map_map]
      have hfun : ((fun k : Nat => m.nextId + (k : Int)) ∘ Nat.succ) =
          fun k : Nat => m.nextId + 1 + (k : Int) := by
        funext k
        simp [Function.comp]
        push_cast
        ring
      rw [hfun]
      simp [TaskManager.addTask]
    · rw [h2, hmgr, List.length_cons]
      push_cast
      ring

/-- C2: ids are assigned strictly increasingly and are never reused, also
across a save/reload boundary.  For any manager obtained by constructing
from a (possibly absent) persistence file: every id encountered while
loading lies strictly below the resulting `nextId` and `nextId` is at least
1 (exactly 1 for a fresh store), a subsequent sequence of `add` calls
assigns the consecutive ids `nextId, nextId+1, ...` (so, starting from 1 on
a fresh store), these assigned ids are pairwise strictly increasing in
order of assignment, and none of them collides with an id already in the
store. -/
theorem C2_ids (f : Option Str) (m : TaskManager) (xs : List (Str × Str))
    (hm : TaskManager.init f = some m) :
    (∀ t ∈ m.tasks, t.id < m.nextId) ∧
    1 ≤ m.nextId ∧
    (f = none → m.nextId = 1) ∧
    (addAll m xs).2 = (List.range xs.length).map (fun k : Nat => m.nextId + (k : Int)) ∧
    List.Pairwise (· < ·) (addAll m xs).2 ∧
    (∀ i ∈ (addAll m xs).2, ∀ t ∈ m.tasks, t.id ≠ i) := by
  have hbase : (∀ t ∈ m.tasks, t.id < m.nextId) ∧ 1 ≤ m.nextId := by
    cases f with
    | none =>
      simp only [TaskManager.init, Option.some.injEq] at hm
      rw [← hm]
      exact ⟨by simp, le_refl _⟩
    | some fs =>
      simp only [TaskManager.init] at hm
      rw [Option.map_eq_some'] at hm
      obtain ⟨r, hload, hmk⟩ := hm
      obtain ⟨ts, nid⟩ := r
      have hinv := loadTasksString_inv hload
      rw [← hmk]
      exact ⟨fun t ht => hinv.1 t ht, hinv.2⟩
  refine ⟨hbase.1, hbase.2, ?_, (addAll_ids xs m).1, ?_, ?_⟩
  · intro hf
    subst hf
    simp only [TaskManager.init, Option.some.injEq] at hm
    rw [← hm]
  · rw [(addAll_ids xs m).1]
    exact (List.pairwise_lt_range xs.length).map _ (fun a b hab => by omega)
  · intro i hi t ht
    rw [(addAll_ids xs m).1] at hi
    simp only [List.mem_map, List.mem_range] at hi
    obtain ⟨k, hk, rfl⟩ := hi
    have := hbase.1 t ht
    omega

/-- Witness for C2: a fresh store assigns ids 1 and 2 to two `add` calls. -/
theorem C2_ids_witness :
    (addAll (TaskManager.mk [] 1 none)
      [("a".data, "T".data), ("b".data, "T".data)]).2 = [1, 2] := by
  have h := C2_ids none (TaskManager.mk [] 1 none)
    [("a".data, "T".data), ("b".data, "T".data)] rfl
  rw [h.2.2.2.1]
  decide

/-! ### Claim C7: exit codes -/

/-- Counterexample to C7 as stated: `delete 5` on an empty store reports
not found, yet the process exit code is 0, not 1 (the not-found branches of
`updateTask`, `deleteTask`, `markInProgress` and `markDone` print a message
and return normally, and `main` falls through to `return 0`). -/
theorem C7_counterexample :
    runMain none ["task-cli".data, "delete".data, "5".data] "T".data =
      some (⟨[], 1, none⟩, 0) ∧ ¬(0 = (1 : Nat)) := by
  constructor
  · decide
  · decide

/-- C7 amended: for the verbs `update`, `delete`, `mark-in-progress` and
`mark-done` the exit code is 1 when a required argument is missing, and 0
whenever the arguments are present and the id argument parses — both on
success and when the id has no live record (the not-found case merely
prints a message).  A non-numeric id argument is a crash (`stoi` throws),
not an exit code. -/
theorem C7_exit_codes (f : Option Str) (m : TaskManager) (now prog : Str)
    (hm : TaskManager.init f = some m) :
    (runMain f [prog, "update".data] now = some (m, 1)) ∧
    (∀ idS : Str, runMain f [prog, "update".data, idS] now = some (m, 1)) ∧
    (runMain f [prog, "delete".data] now = some (m, 1)) ∧
    (runMain f [prog, "mark-in-progress".data] now = some (m, 1)) ∧
    (runMain f [prog, "mark-done".data] now = some (m, 1)) ∧
    (∀ (idS : Str) (id : Int) (d : Str) (rest : List Str), stoi idS = some id →
      runMain f (prog :: "update".data :: idS :: d :: rest) now =
        some ((m.updateTask id d now).mgr, 0)) ∧
    (∀ (idS : Str) (id : Int) (rest : List Str), stoi idS = some id →
      runMain f (prog :: "delete".data :: idS :: rest) now =
        some ((m.deleteTask id).mgr, 0)) ∧
    (∀ (idS : Str) (id : Int) (rest : List Str), stoi idS = some id →
      runMain f (prog :: "mark-in-progress".data :: idS :: rest) now =
        some ((m.markInProgress id now).mgr, 0)) ∧
    (∀ (idS : Str) (id : Int) (rest : List Str), stoi idS = some id →
      runMain f (prog :: "mark-done".data :: idS :: rest) now =
        some ((m.markDone id now).mgr, 0)) := by
  have hUA : ¬((['u', 'p', 'd', 'a', 't', 'e'] : Str) = ['a', 'd', 'd']) := by decide
  have hDA : ¬((['d', 'e', 'l', 'e', 't', 'e'] : Str) = ['a', 'd', 'd']) := by decide
  have hDU : ¬((['d', 'e', 'l', 'e', 't', 'e'] : Str) =
    ['u', 'p', 'd', 'a', 't', 'e']) := by decide
  have hPA : ¬((['m', 'a', 'r', 'k', '-', 'i', 'n', '-', 'p', 'r', 'o', 'g', 'r', 'e',
    's', 's'] : Str) = ['a', 'd', 'd']) := by decide
  have hPU : ¬((['m', 'a', 'r', 'k', '-', 'i', 'n', '-', 'p', 'r', 'o', 'g', 'r', 'e',
    's', 's'] : Str) = ['u', 'p', 'd', 'a', 't', 'e']) := by decide
  have hPD : ¬((['m', 'a', 'r', 'k', '-', 'i', 'n', '-', 'p', 'r', 'o', 'g', 'r', 'e',
    's', 's'] : Str) = ['d', 'e', 'l', 'e', 't', 'e']) := by decide
  have hNA : ¬((['m', 'a', 'r', 'k', '-', 'd', 'o', 'n', 'e'] : Str) =
    ['a', 'd', 'd']) := by decide
  have hNU : ¬((['m', 'a', 'r', 'k', '-', 'd', 'o', 'n', 'e'] : Str) =
    ['u', 'p', 'd', 'a', 't', 'e']) := by decide
  have hND : ¬((['m', 'a', 'r', 'k', '-', 'd', 'o', 'n', 'e'] : Str) =
    ['d', 'e', 'l', 'e', 't', 'e']) := by decide
  have hNP : ¬((['m', 'a', 'r', 'k', '-', 'd', 'o', 'n', 'e'] : Str) =
    ['m', 'a', 'r', 'k', '-', 'i', 'n', '-', 'p', 'r', 'o', 'g', 'r', 'e', 's',
    's']) := by decide
  refine ⟨?_, fun idS => ?_, ?_, ?_, ?_, fun idS id d rest hid => ?_,
    fun idS id rest hid => ?_, fun idS id rest hid => ?_, fun idS id rest hid => ?_⟩
  · simp only [runMain, hm]
    rw [if_neg hUA, if_pos trivial]
  · simp only [runMain, hm]
    rw [if_neg hUA, if_pos trivial]
  · simp only [runMain, hm]
    rw [if_neg hDA, if_neg hDU, if_pos trivial]
  · simp only [runMain, hm]
    rw [if_neg hPA, if_neg hPU, if_neg hPD, if_pos trivial]
  · simp only [runMain, hm]
    rw [if_neg hNA, if_neg hNU, if_neg hND, if_neg hNP, if_pos trivial]
  · simp only [runMain, hm]
    rw [if_neg hUA, if_pos trivial, hid]
    rfl
  · simp only [runMain, hm]
    rw [if_neg hDA, if_neg hDU, if_pos trivial, hid]
    rfl
  · simp only [runMain, hm]
    rw [if_neg hPA, if_neg hPU, if_neg hPD, if_pos trivial, hid]
    rfl
  · simp only [runMain, hm]
    rw [if_neg hNA, if_neg hNU, if_neg hND, if_neg hNP, if_pos trivial, hid]
    rfl

/-- Witness for the amended C7: on an empty store, `update` with no
arguments exits 1, and `delete 5` (which reports not found) exits 0. -/
theorem C7_exit_codes_witness :
    runMain none ["task-cli".data, "update".data] "T".data =
      some (TaskManager.mk [] 1 none, 1) ∧
    runMain none ["task-cli".data, "delete".data, "5".data] "T".data =
      some (((TaskManager.mk [] 1 none).deleteTask 5).mgr, 0) := by
  have h := C7_exit_codes none (TaskManager.mk [] 1 none) "T".data "task-cli".data rfl
  exact ⟨h.1, h.2.2.2.2.2.2.1 "5".data 5 [] (by decide)⟩

/-! ### Claim C1: the round trip -/

set_option maxRecDepth 100000 in
/-- C1 fails on the code: saving a store whose only record has the
description `say "hi"` (an embedded double quote) and reloading it yields a
record whose description is the truncated `say ` — the loader cuts the
description at the first quote it finds, so the round trip is not the
identity on live records.  (For quote-free, bracket-free text the round
trip is the identity: see `loadString_saveString`.) -/
theorem C1_roundtrip_quote_bug :
    loadTasksString
        (saveString [⟨1, "say \"hi\"".data, "todo".data, "T".data, "T".data, false⟩]) =
      some ([⟨1, "say ".data, "todo".data, "T".data, "T".data, false⟩], 2) ∧
    ¬("say ".data = "say \"hi\"".data) := by
  constructor
  · decide
  · decide

/-! ### Helpers for the round-trip proof -/

theorem dropPre {X : Str} {k : Nat} (h : X.length = k) (Y : Str) :
    (X ++ Y).drop k = Y := by
  rw [← h]
  exact dropLenZero X Y

theorem dropAt (content : Str) (pos k : Nat) :
    content.drop (pos + k) = (content.drop pos).drop k := by
  rw [List.drop_drop, Nat.add_comm]

theorem pAdd_small {a b : Nat} (h : a + b < 2 ^ 64) : pAdd a b = a + b :=
  Nat.mod_eq_of_lt h

theorem digit_ne_high {c : Char} (h : isDigitCh c = true) {d : Char}
    (hd : 57 < d.toNat) : c ≠ d := by
  intro he
  subst he
  rw [isDigitCh] at h
  simp at h
  omega

theorem intToStr_nonneg {i : Int} (h : 0 ≤ i) : intToStr i = natToStr i.toNat := by
  rw [intToStr, if_neg (by omega)]

theorem takeHead {c : Char} (X Y : Str) :
    (c :: (X ++ Y)).take (1 + X.length) = c :: X := by
  rw [Nat.add_comm, List.take_succ_cons, takeLen]

/-! ### Absence of the bracket pattern -/

theorem noBrk_of_isSome_false {s : Str} (h : (strFind? brkPat s 0).isSome = false) :
    NoBrk s := by
  intro i
  by_contra hc
  rw [Bool.not_eq_false] at hc
  have := (strFind?_isSome_iff brkPat s).mpr ⟨i, hc⟩
  rw [h] at this
  exact absurd this (by simp)

theorem isSome_false_of_noBrk {s : Str} (h : NoBrk s) :
    (strFind? brkPat s 0).isSome = false := by
  by_contra hc
  rw [Bool.not_eq_false] at hc
  obtain ⟨i, hi⟩ := (strFind?_isSome_iff brkPat s).mp hc
  rw [h i] at hi
  exact absurd hi (by simp)

theorem noBrk_of_no_open {s : Str} (h : ∀ c ∈ s, c ≠ '[') : NoBrk s := by
  intro i
  cases hdrop : s.drop i with
  | nil => rfl
  | cons c rest =>
    have hc : c ≠ '[' := by
      apply h
      exact List.drop_subset i s (by rw [hdrop]; simp)
    simp only [brkPat, matchAt]
    rw [if_neg (fun he => hc he.symm)]

theorem noBrk_cons_shift {c : Char} {s : Str} (h : NoBrk (c :: s)) : NoBrk s := by
  intro i
  have := h (i + 1)
  rwa [List.drop_succ_cons] at this

theorem noBrk_append : ∀ (X Y : Str), NoBrk X → NoBrk Y →
    ¬(X.getLast? = some '[' ∧ Y.head? = some ']') → NoBrk (X ++ Y) := by
  intro X
  induction X with
  | nil =>
    intro Y _ hY _
    simpa using hY
  | cons c X' ih =>
    intro Y hX hY hb i
    cases i with
    | zero =>
      rw [List.drop_zero, List.cons_append]
      simp only [brkPat, matchAt]
      by_cases hc : '[' = c
      · rw [if_pos hc]
        cases X' with
        | nil =>
          simp only [List.nil_append]
          cases Y with
          | nil => rfl
          | cons y Y' =>
            simp only [matchAt]
            by_cases hy : ']' = y
            · exact absurd ⟨by rw [← hc]; rfl, by rw [← hy]; rfl⟩ hb
            · rw [if_neg hy]
        | cons x X'' =>
          rw [List.cons_append]
          simp only [matchAt]
          by_cases hx : ']' = x
          · exfalso
            have h0 := hX 0
            rw [List.drop_zero] at h0
            simp only [brkPat, matchAt] at h0
            rw [if_pos hc, if_pos hx] at h0
            exact absurd h0 (by simp [matchAt])
          · rw [if_neg hx]
      · rw [if_neg hc]
    | succ i' =>
      rw [List.cons_append, List.drop_succ_cons]
      refine ih Y (noBrk_cons_shift hX) hY ?_ i'
      intro ⟨h1, h2⟩
      refine hb ⟨?_, h2⟩
      cases X' with
      | nil => simp at h1
      | cons x X'' => rw [← h1, List.getLast?_cons_cons]

/-! ### Shape of the saved file -/

theorem toJson_live {t : TaskTracker} (h : t.isDeleted = false) :
    t.toJson = recBlock t ++ jClose := by
  rw [TaskTracker.toJson, if_neg (by rw [h]; simp), recBlock]

theorem saveBody_true_nil : ∀ ts : List TaskTracker,
    ts.filter (fun t => decide (t.isDeleted = false)) = [] → saveBody ts true = [] := by
  intro ts
  induction ts with
  | nil => intro _; rfl
  | cons t ts ih =>
    intro h
    rw [List.filter_cons] at h
    by_cases hd : t.isDeleted = true
    · rw [if_neg (by rw [decide_eq_false (by rw [hd]; simp)]; simp)] at h
      rw [saveBody, if_pos hd]
      exact ih h
    · rw [Bool.not_eq_true] at hd
      rw [if_pos (decide_eq_true hd)] at h
      exact absurd h (by simp)

theorem saveTail_shape : ∀ ts : List TaskTracker,
    jClose ++ saveBody ts false ++ ['\n', ']', '\n'] =
      tailStr (ts.filter (fun t => decide (t.isDeleted = false))) := by
  intro ts
  induction ts with
  | nil => rfl
  | cons t ts ih =>
    rw [List.filter_cons]
    by_cases hd : t.isDeleted = true
    · rw [if_neg (by rw [decide_eq_false (by rw [hd]; simp)]; simp)]
      rw [saveBody, if_pos hd]
      exact ih
    · rw [Bool.not_eq_true] at hd
      rw [if_pos (decide_eq_true hd)]
      rw [saveBody, if_neg (by rw [hd]; simp), if_neg (by simp)]
      rw [toJson_live hd, tailStr, ← ih]
      simp [List.append_assoc, jClose]

theorem saveBody_true_shape : ∀ (ts : List TaskTracker) (r : TaskTracker)
    (rest : List TaskTracker),
    ts.filter (fun t => decide (t.isDeleted = false)) = r :: rest →
    saveBody ts true ++ ['\n', ']', '\n'] = recBlock r ++ tailStr rest := by
  intro ts
  induction ts with
  | nil => intro r rest h; exact absurd h (by simp)
  | cons t ts ih =>
    intro r rest h
    rw [List.filter_cons] at h
    by_cases hd : t.isDeleted = true
    · rw [if_neg (by rw [decide_eq_false (by rw [hd]; simp)]; simp)] at h
      rw [saveBody, if_pos hd]
      exact ih r rest h
    · rw [Bool.not_eq_true] at hd
      rw [if_pos (decide_eq_true hd)] at h
      rw [List.cons.injEq] at h
      obtain ⟨rfl, hrest⟩ := h
      rw [saveBody, if_neg (by rw [hd]; simp), if_pos rfl]
      rw [toJson_live hd]
      rw [← hrest, ← saveTail_shape ts]
      simp [List.append_assoc]

theorem saveString_ne_nil (ts : List TaskTracker) : saveString ts ≠ [] := by
  rw [saveString]
  simp

theorem saveString_last (ts : List TaskTracker) :
    (saveString ts).getLast? = some ']' := by
  rw [saveString, List.append_assoc]
  exact getLastAppend _ (getLastAppend _ (by rfl))

theorem rebuild_saveString (ts : List TaskTracker) :
    rebuildContent (saveString ts) = saveString ts ++ ['\n'] := by
  rw [rebuildContent, if_neg (saveString_ne_nil ts), if_neg (by rw [saveString_last]; simp)]

theorem content_shape_nil (ts : List TaskTracker)
    (h : ts.filter (fun t => decide (t.isDeleted = false)) = []) :
    rebuildContent (saveString ts) = ['[', '\n', '\n', ']', '\n'] := by
  rw [rebuild_saveString, saveString, saveBody_true_nil ts h]
  rfl

theorem content_shape_cons (ts : List TaskTracker) (r : TaskTracker)
    (rest : List TaskTracker)
    (h : ts.filter (fun t => decide (t.isDeleted = false)) = r :: rest) :
    rebuildContent (saveString ts) = ['[', '\n'] ++ (recBlock r ++ tailStr rest) := by
  rw [rebuild_saveString, saveString]
  rw [show (['[', '\n'] ++ saveBody ts true ++ ['\n', ']']) ++ ['\n'] =
    ['[', '\n'] ++ (saveBody ts true ++ ['\n', ']', '\n']) from by
      simp [List.append_assoc]]
  rw [saveBody_true_shape ts r rest h]

theorem bdL {X : Str} {P : Prop} (c : Char) (h : X.getLast? = some c)
    (hc : ¬(c = '[')) : ¬(X.getLast? = some '[' ∧ P) := by
  intro ⟨h1, _⟩
  rw [h] at h1
  exact hc (Option.some.inj h1)

theorem bdR {Y : Str} {P : Prop} (c : Char) (h : Y.head? = some c)
    (hc : ¬(c = ']')) : ¬(P ∧ Y.head? = some ']') := by
  intro ⟨_, h2⟩
  rw [h] at h2
  exact hc (Option.some.inj h2)

theorem noBrk_recBlock_append (t : TaskTracker) (hs : SafeT t) (Y : Str)
    (hY : NoBrk Y) (hh : Y.head? = some '\"') : NoBrk (recBlock t ++ Y) := by
  obtain ⟨hid0, hqD, hqS, hqC, hqU, hbD, hbS, hbC, hbU⟩ := hs
  rw [recBlock, intToStr_nonneg hid0]
  rw [show jOpen ++ idKey ++ natToStr t.id.toNat ++ g4 ++ descPat ++ t.desc ++
      quoteG ++ statusPat ++ t.status ++ quoteG ++ createdPat ++ t.createdAt ++
      quoteG ++ updatedPat ++ t.updatedAt ++ Y =
      jOpen ++ (idKey ++ (natToStr t.id.toNat ++ (g4 ++ (descPat ++ (t.desc ++
      (quoteG ++ (statusPat ++ (t.status ++ (quoteG ++ (createdPat ++
      (t.createdAt ++ (quoteG ++ (updatedPat ++ (t.updatedAt ++ Y))))))))))))))
    from by simp [List.append_assoc]]
  refine noBrk_append _ _ (noBrk_of_isSome_false (by decide)) ?_ (bdL ' ' (by decide) (by decide))
  refine noBrk_append _ _ (noBrk_of_isSome_false (by decide)) ?_ (bdL ' ' (by decide) (by decide))
  refine noBrk_append _ _ (noBrk_of_no_open
    (fun c hc => digit_ne_high (natToStr_digits _ c hc) (by decide))) ?_
    (bdR ',' (by rfl) (by decide))
  refine noBrk_append _ _ (noBrk_of_isSome_false (by decide)) ?_ (bdL ' ' (by decide) (by decide))
  refine noBrk_append _ _ (noBrk_of_isSome_false (by decide)) ?_ (bdL '\"' (by decide) (by decide))
  refine noBrk_append _ _ (noBrk_of_isSome_false hbD) ?_ (bdR '\"' (by rfl) (by decide))
  refine noBrk_append _ _ (noBrk_of_isSome_false (by decide)) ?_ (bdL ' ' (by decide) (by decide))
  refine noBrk_append _ _ (noBrk_of_isSome_false (by decide)) ?_ (bdL '\"' (by decide) (by decide))
  refine noBrk_append _ _ (noBrk_of_isSome_false hbS) ?_ (bdR '\"' (by rfl) (by decide))
  refine noBrk_append _ _ (noBrk_of_isSome_false (by decide)) ?_ (bdL ' ' (by decide) (by decide))
  refine noBrk_append _ _ (noBrk_of_isSome_false (by decide)) ?_ (bdL '\"' (by decide) (by decide))
  refine noBrk_append _ _ (noBrk_of_isSome_false hbC) ?_ (bdR '\"' (by rfl) (by decide))
  refine noBrk_append _ _ (noBrk_of_isSome_false (by decide)) ?_ (bdL ' ' (by decide) (by decide))
  refine noBrk_append _ _ (noBrk_of_isSome_false (by decide)) ?_ (bdL '\"' (by decide) (by decide))
  exact noBrk_append _ _ (noBrk_of_isSome_false hbU) hY (bdR '\"' hh (by decide))

theorem tailStr_head : ∀ rs : List TaskTracker, (tailStr rs).head? = some '\"' := by
  intro rs
  cases rs with
  | nil => rfl
  | cons r rs => rfl

theorem noBrk_tailStr : ∀ rs : List TaskTracker, (∀ t ∈ rs, SafeT t) →
    NoBrk (tailStr rs) := by
  intro rs
  induction rs with
  | nil => intro _; exact noBrk_of_isSome_false (by decide)
  | cons r rs ih =>
    intro hsafe
    rw [tailStr]
    rw [List.append_assoc]
    refine noBrk_append _ _ (noBrk_of_isSome_false (by decide)) ?_
      (bdL '\n' (by decide) (by decide))
    exact noBrk_recBlock_append r (hsafe r (by simp)) _
      (ih (fun t ht => hsafe t (by simp [ht]))) (tailStr_head rs)

theorem content_noBrk_cons (ts : List TaskTracker) (r : TaskTracker)
    (rest : List TaskTracker)
    (h : ts.filter (fun t => decide (t.isDeleted = false)) = r :: rest)
    (hsafe : ∀ t ∈ r :: rest, SafeT t) :
    (strFind? brkPat (rebuildContent (saveString ts)) 0).isSome = false := by
  rw [content_shape_cons ts r rest h]
  apply isSome_false_of_noBrk
  refine noBrk_append _ _ (noBrk_of_isSome_false (by decide)) ?_
    (bdL '\n' (by decide) (by decide))
  exact noBrk_recBlock_append r (hsafe r (by simp)) _
    (noBrk_tailStr rest (fun t ht => hsafe t (by simp [ht]))) (tailStr_head rest)

/-! ### Locating the fields of one serialized record -/

theorem rfind_skip_pred' (pat : Str) (p : Char) (ps : Str) (hpat : pat = p :: ps)
    (X Y : Str) (h : ∀ c ∈ X, c ≠ p) :
    rfind pat (X ++ Y) = (rfind pat Y).map (· + X.length) := by
  subst hpat
  exact rfind_skip_pred p ps X Y h

theorem fieldSkip' (pat : Str) (a : Char) (n' : Str) (x : Char) (t' : Str)
    (D R : Str) (c : Char)
    (hpat : pat = '\"' :: ((a :: n') ++ '\"' :: (x :: t')))
    (hn : ∀ b ∈ a :: n', b ≠ '\"') (hD : ∀ b ∈ D, b ≠ '\"')
    (ha : ¬(a = c)) (hx : ¬(x = c)) :
    rfind pat ('\"' :: (D ++ '\"' :: (c :: R))) =
      (rfind pat (c :: R)).map (· + (2 + D.length)) := by
  subst hpat
  exact fieldSkip a n' t' x D R c hn hD ha hx

theorem find_id_lead0 (REST : Str) :
    rfind idPat (['[', '\n'] ++ (jOpen ++ (idKey ++ REST))) = some 10 := by
  rw [rfind_skip_all idPat ['[', '\n'] _ (by decide)]
  rw [rfind_skip_all idPat jOpen _ (by decide)]
  rw [show idKey ++ REST = idPat ++ (' ' :: REST) from rfl]
  rw [rfind_match (matchAt_self idPat _)]
  simp [jOpen]

theorem find_id_leadSep (REST : Str) :
    rfind idPat (['\"', '\n', ' ', ' ', '\x7d', ',', '\n'] ++ (jOpen ++ (idKey ++ REST))) =
      some 15 := by
  rw [rfind_skip_all idPat ['\"', '\n', ' ', ' ', '\x7d', ',', '\n'] _ (by decide)]
  rw [rfind_skip_all idPat jOpen _ (by decide)]
  rw [show idKey ++ REST = idPat ++ (' ' :: REST) from rfl]
  rw [rfind_match (matchAt_self idPat _)]
  simp [jOpen]

theorem find_colon (X : Str) :
    rfind [':'] (idKey ++ X) = some 4 := by
  rw [show idKey ++ X = ['\"', 'i', 'd', '\"'] ++ (':' :: (' ' :: X)) from rfl]
  rw [rfind_skip_all [':'] ['\"', 'i', 'd', '\"'] _ (by decide)]
  rw [rfind_match (by simp [matchAt])]
  simp

theorem find_comma (n R : Str) (hn : ∀ c ∈ n, isDigitCh c = true) :
    rfind [','] (' ' :: (n ++ (g4 ++ R))) = some (1 + n.length) := by
  rw [rfind_cons_miss (by simp only [matchAt]; rw [if_neg (by decide)])]
  rw [rfind_skip_pred ',' [] n _ (fun c hc => digit_ne (hn c hc) (by decide))]
  rw [show g4 ++ R = ',' :: (['\n', ' ', ' ', ' ', ' '] ++ R) from rfl]
  rw [rfind_match (by simp [matchAt])]
  simp only [Option.map_some']
  congr 1
  omega

theorem find_quote_val (V R' : Str) (hq : noQuote V) :
    rfind ['\"'] (V ++ ('\"' :: R')) = some V.length := by
  rw [rfind_skip_pred '\"' [] V _ hq]
  rw [rfind_match (by simp [matchAt])]
  simp

theorem find_desc (n D R : Str) (hn : ∀ c ∈ n, isDigitCh c = true) :
    rfind descPat (idKey ++ (n ++ (g4 ++ (descPat ++ (D ++ R))))) =
      some (12 + n.length) := by
  rw [rfind_skip_all descPat idKey _ (by decide)]
  rw [rfind_skip_pred' descPat '\"' _ rfl n _ (fun c hc => digit_ne (hn c hc) (by decide))]
  rw [rfind_skip_all descPat g4 _ (by decide)]
  rw [rfind_match (matchAt_self descPat _)]
  simp only [Option.map_some']
  congr 1
  simp [idKey, g4]
  omega

theorem find_status (n D S R : Str) (hn : ∀ c ∈ n, isDigitCh c = true)
    (hqD : noQuote D) :
    rfind statusPat
      (idKey ++ (n ++ (g4 ++ (descPat ++ (D ++ (quoteG ++ (statusPat ++ (S ++ R)))))))) =
      some (35 + n.length + D.length) := by
  rw [rfind_skip_all statusPat idKey _ (by decide)]
  rw [rfind_skip_pred' statusPat '\"' _ rfl n _ (fun c hc => digit_ne (hn c hc) (by decide))]
  rw [rfind_skip_all statusPat g4 _ (by decide)]
  rw [show descPat ++ (D ++ (quoteG ++ (statusPat ++ (S ++ R)))) =
    ['\"', 'd', 'e', 's', 'c', 'r', 'i', 'p', 't', 'i', 'o', 'n', '\"', ':', ' '] ++
    ('\"' :: (D ++ '\"' :: (',' :: (['\n', ' ', ' ', ' ', ' '] ++ (statusPat ++ (S ++ R))))))
    from by simp [descPat, quoteG]]
  rw [rfind_skip_all statusPat
    ['\"', 'd', 'e', 's', 'c', 'r', 'i', 'p', 't', 'i', 'o', 'n', '\"', ':', ' '] _
    (by decide)]
  rw [fieldSkip' statusPat 's' ['t', 'a', 't', 'u', 's'] ':' [' ', '\"'] D _ ','
    (by rfl) (by decide) hqD (by decide) (by decide)]
  rw [show (',' :: (['\n', ' ', ' ', ' ', ' '] ++ (statusPat ++ (S ++ R)))) =
    g4 ++ (statusPat ++ (S ++ R)) from rfl]
  rw [rfind_skip_all statusPat g4 _ (by decide)]
  rw [rfind_match (matchAt_self statusPat _)]
  simp only [Option.map_some']
  congr 1
  simp [idKey, g4]
  omega

theorem find_created (n D S C R : Str) (hn : ∀ c ∈ n, isDigitCh c = true)
    (hqD : noQuote D) (hqS : noQuote S) :
    rfind createdPat
      (idKey ++ (n ++ (g4 ++ (descPat ++ (D ++ (quoteG ++ (statusPat ++ (S ++
        (quoteG ++ (createdPat ++ (C ++ R))))))))))) =
      some (53 + n.length + D.length + S.length) := by
  rw [rfind_skip_all createdPat idKey _ (by decide)]
  rw [rfind_skip_pred' createdPat '\"' _ rfl n _ (fun c hc => digit_ne (hn c hc) (by decide))]
  rw [rfind_skip_all createdPat g4 _ (by decide)]
  rw [show descPat ++ (D ++ (quoteG ++ (statusPat ++ (S ++ (quoteG ++ (createdPat ++
      (C ++ R))))))) =
    ['\"', 'd', 'e', 's', 'c', 'r', 'i', 'p', 't', 'i', 'o', 'n', '\"', ':', ' '] ++
    ('\"' :: (D ++ '\"' :: (',' :: (['\n', ' ', ' ', ' ', ' '] ++ (statusPat ++ (S ++
      (quoteG ++ (createdPat ++ (C ++ R)))))))))
    from by simp [descPat, quoteG]]
  rw [rfind_skip_all createdPat
    ['\"', 'd', 'e', 's', 'c', 'r', 'i', 'p', 't', 'i', 'o', 'n', '\"', ':', ' '] _
    (by decide)]
  rw [fieldSkip' createdPat 'c' ['r', 'e', 'a', 't', 'e', 'd', 'A', 't'] ':'
    [' ', '\"'] D _ ',' (by rfl) (by decide) hqD (by decide) (by decide)]
  rw [show (',' :: (['\n', ' ', ' ', ' ', ' '] ++ (statusPat ++ (S ++ (quoteG ++
      (createdPat ++ (C ++ R))))))) =
    g4 ++ (statusPat ++ (S ++ (quoteG ++ (createdPat ++ (C ++ R))))) from rfl]
  rw [rfind_skip_all createdPat g4 _ (by decide)]
  rw [show statusPat ++ (S ++ (quoteG ++ (createdPat ++ (C ++ R)))) =
    ['\"', 's', 't', 'a', 't', 'u', 's', '\"', ':', ' '] ++
    ('\"' :: (S ++ '\"' :: (',' :: (['\n', ' ', ' ', ' ', ' '] ++ (createdPat ++
      (C ++ R))))))
    from by simp [statusPat, quoteG]]
  rw [rfind_skip_all createdPat
    ['\"', 's', 't', 'a', 't', 'u', 's', '\"', ':', ' '] _ (by decide)]
  rw [fieldSkip' createdPat 'c' ['r', 'e', 'a', 't', 'e', 'd', 'A', 't'] ':'
    [' ', '\"'] S _ ',' (by rfl) (by decide) hqS (by decide) (by decide)]
  rw [show (',' :: (['\n', ' ', ' ', ' ', ' '] ++ (createdPat ++ (C ++ R)))) =
    g4 ++ (createdPat ++ (C ++ R)) from rfl]
  rw [rfind_skip_all createdPat g4 _ (by decide)]
  rw [rfind_match (matchAt_self createdPat _)]
  simp only [Option.map_some']
  congr 1
  simp [idKey, g4]
  omega

theorem find_updated (n D S C U R : Str) (hn : ∀ c ∈ n, isDigitCh c = true)
    (hqD : noQuote D) (hqS : noQuote S) (hqC : noQuote C) :
    rfind updatedPat
      (idKey ++ (n ++ (g4 ++ (descPat ++ (D ++ (quoteG ++ (statusPat ++ (S ++
        (quoteG ++ (createdPat ++ (C ++ (quoteG ++ (updatedPat ++ (U ++ R)))))))))))))) =
      some (74 + n.length + D.length + S.length + C.length) := by
  rw [rfind_skip_all updatedPat idKey _ (by decide)]
  rw [rfind_skip_pred' updatedPat '\"' _ rfl n _
    (fun c hc => digit_ne (hn c hc) (by decide))]
  rw [rfind_skip_all updatedPat g4 _ (by decide)]
  rw [show descPat ++ (D ++ (quoteG ++ (statusPat ++ (S ++ (quoteG ++ (createdPat ++
      (C ++ (quoteG ++ (updatedPat ++ (U ++ R)))))))))) =
    ['\"', 'd', 'e', 's', 'c', 'r', 'i', 'p', 't', 'i', 'o', 'n', '\"', ':', ' '] ++
    ('\"' :: (D ++ '\"' :: (',' :: (['\n', ' ', ' ', ' ', ' '] ++ (statusPat ++ (S ++
      (quoteG ++ (createdPat ++ (C ++ (quoteG ++ (updatedPat ++ (U ++ R))))))))))))
    from by simp [descPat, quoteG]]
  rw [rfind_skip_all updatedPat
    ['\"', 'd', 'e', 's', 'c', 'r', 'i', 'p', 't', 'i', 'o', 'n', '\"', ':', ' '] _
    (by decide)]
  rw [fieldSkip' updatedPat 'u' ['p', 'd', 'a', 't', 'e', 'd', 'A', 't'] ':'
    [' ', '\"'] D _ ',' (by rfl) (by decide) hqD (by decide) (by decide)]
  rw [show (',' :: (['\n', ' ', ' ', ' ', ' '] ++ (statusPat ++ (S ++ (quoteG ++
      (createdPat ++ (C ++ (quoteG ++ (updatedPat ++ (U ++ R)))))))))) =
    g4 ++ (statusPat ++ (S ++ (quoteG ++ (createdPat ++ (C ++ (quoteG ++
      (updatedPat ++ (U ++ R)))))))) from rfl]
  rw [rfind_skip_all updatedPat g4 _ (by decide)]
  rw [show statusPat ++ (S ++ (quoteG ++ (createdPat ++ (C ++ (quoteG ++
      (updatedPat ++ (U ++ R))))))) =
    ['\"', 's', 't', 'a', 't', 'u', 's', '\"', ':', ' '] ++
    ('\"' :: (S ++ '\"' :: (',' :: (['\n', ' ', ' ', ' ', ' '] ++ (createdPat ++
      (C ++ (quoteG ++ (updatedPat ++ (U ++ R)))))))))
    from by simp [statusPat, quoteG]]
  rw [rfind_skip_all updatedPat
    ['\"', 's', 't', 'a', 't', 'u', 's', '\"', ':', ' '] _ (by decide)]
  rw [fieldSkip' updatedPat 'u' ['p', 'd', 'a', 't', 'e', 'd', 'A', 't'] ':'
    [' ', '\"'] S _ ',' (by rfl) (by decide) hqS (by decide) (by decide)]
  rw [show (',' :: (['\n', ' ', ' ', ' ', ' '] ++ (createdPat ++ (C ++ (quoteG ++
      (updatedPat ++ (U ++ R))))))) =
    g4 ++ (createdPat ++ (C ++ (quoteG ++ (updatedPat ++ (U ++ R))))) from rfl]
  rw [rfind_skip_all updatedPat g4 _ (by decide)]
  rw [show createdPat ++ (C ++ (quoteG ++ (updatedPat ++ (U ++ R)))) =
    ['\"', 'c', 'r', 'e', 'a', 't', 'e', 'd', 'A', 't', '\"', ':', ' '] ++
    ('\"' :: (C ++ '\"' :: (',' :: (['\n', ' ', ' ', ' ', ' '] ++ (updatedPat ++
      (U ++ R))))))
    from by simp [createdPat, quoteG]]
  rw [rfind_skip_all updatedPat
    ['\"', 'c', 'r', 'e', 'a', 't', 'e', 'd', 'A', 't', '\"', ':', ' '] _ (by decide)]
  rw [fieldSkip' updatedPat 'u' ['p', 'd', 'a', 't', 'e', 'd', 'A', 't'] ':'
    [' ', '\"'] C _ ',' (by rfl) (by decide) hqC (by decide) (by decide)]
  rw [show (',' :: (['\n', ' ', ' ', ' ', ' '] ++ (updatedPat ++ (U ++ R)))) =
    g4 ++ (updatedPat ++ (U ++ R)) from rfl]
  rw [rfind_skip_all updatedPat g4 _ (by decide)]
  rw [rfind_match (matchAt_self updatedPat _)]
  simp only [Option.map_some']
  congr 1
  simp [idKey, g4]
  omega

theorem find_id_end : rfind idPat ['\"', '\n', ' ', ' ', '\x7d', '\n', ']', '\n'] =
    none := by
  decide

theorem dropAt' (content : Str) (pos k : Nat) :
    content.drop (k + pos) = (content.drop pos).drop k := by
  rw [Nat.add_comm]
  exact dropAt content pos k

theorem posLeOfDropEq {s : Str} {pos : Nat} {Y : Str} (h : s.drop pos = Y)
    (hy : Y ≠ []) : pos < s.length := by
  by_contra hc
  push_neg at hc
  rw [List.drop_eq_nil_of_le hc] at h
  exact hy h.symm

/-- One iteration of the scan loop, stated over the values of the
individual `find` / `substr` / `stoi` steps: when the searches and
extractions return these values, the iteration appends the parsed record
and resumes at `uE`. -/
theorem loadLoop_step_core (content : Str) (fuel pos : Nat)
    (acc : List TaskTracker) (nid : Int) (p idS idE dS dE sS sE cS cE uS uE : Nat)
    (idv : Int) (iStr dv sv cv uv : Str)
    (h1 : strFind? idPat content pos = some p)
    (h2 : pAdd (cppFind [':'] content p) 1 = idS)
    (h3 : cppFind [','] content idS = idE)
    (h4 : cppSubstr content idS (idE - idS) = some iStr)
    (h5 : stoi iStr = some idv)
    (h6 : pAdd (cppFind descPat content p) 16 = dS)
    (h7 : cppFind ['\"'] content dS = dE)
    (h8 : cppSubstr content dS (dE - dS) = some dv)
    (h9 : pAdd (cppFind statusPat content p) 11 = sS)
    (h10 : cppFind ['\"'] content sS = sE)
    (h11 : cppSubstr content sS (sE - sS) = some sv)
    (h12 : pAdd (cppFind createdPat content p) 14 = cS)
    (h13 : cppFind ['\"'] content cS = cE)
    (h14 : cppSubstr content cS (cE - cS) = some cv)
    (h15 : pAdd (cppFind updatedPat content p) 14 = uS)
    (h16 : cppFind ['\"'] content uS = uE)
    (h17 : cppSubstr content uS (uE - uS) = some uv) :
    loadLoop content (fuel + 1) pos acc nid =
      loadLoop content fuel uE (acc ++ [⟨idv, dv, sv, cv, uv, false⟩])
        (max nid (idv + 1)) := by
  simp only [loadLoop, h1, h2, h3, h4, h5, h6, h7, h8, h9, h10, h11, h12, h13, h14,
    h15, h16, h17]
set_option maxHeartbeats 4000000 in
/-- One iteration of the scan loop over one well-formed serialized record:
from `pos` (position 0 or the closing quote of the previous record's
`updatedAt` value), the loop locates and parses the record's five fields
back exactly as written, appends the reconstructed record, raises `nextId`
to cover the id, and resumes the scan at the closing quote of this
record's `updatedAt` value. -/
theorem loadLoop_step (content : Str) (fuel pos : Nat) (acc : List TaskTracker)
    (nid : Int) (t : TaskTracker) (rs : List TaskTracker) (G : Str)
    (hsz : content.length + 16 < 2 ^ 64)
    (hpos : pos ≤ content.length)
    (ht : SafeT t)
    (hs : content.drop pos = G ++ (jOpen ++ (idKey ++ (natToStr t.id.toNat ++ (g4 ++ (descPat ++ (t.desc ++ (quoteG ++ (statusPat ++ (t.status ++ (quoteG ++ (createdPat ++ (t.createdAt ++ (quoteG ++ (updatedPat ++ (t.updatedAt ++ (tailStr rs)))))))))))))))))
    (hGfind : rfind idPat (content.drop pos) = some (G.length + 8)) :
    loadLoop content (fuel + 1) pos acc nid =
      loadLoop content fuel (G.length + 96 + (natToStr t.id.toNat).length + t.desc.length + t.status.length + t.createdAt.length + t.updatedAt.length + pos)
        (acc ++ [⟨t.id, t.desc, t.status, t.createdAt, t.updatedAt, false⟩])
        (max nid (t.id + 1)) ∧
      content.drop (G.length + 96 + (natToStr t.id.toNat).length + t.desc.length + t.status.length + t.createdAt.length + t.updatedAt.length + pos) = tailStr rs := by
  obtain ⟨hid0, hqD, hqS, hqC, hqU, hb1, hb2, hb3, hb4⟩ := ht
  have hdig : ∀ c ∈ natToStr t.id.toNat, isDigitCh c = true := natToStr_digits _
  obtain ⟨tr, htr⟩ : ∃ tr, tailStr rs = '\"' :: tr := by
    cases rs with
    | nil => exact ⟨_, rfl⟩
    | cons r rs => exact ⟨_, rfl⟩
  have hlensum : content.length - pos =
      G.length + 96 + (natToStr t.id.toNat).length + t.desc.length + t.status.length + t.createdAt.length + t.updatedAt.length + (tailStr rs).length := by
    rw [← List.length_drop, hs]
    simp [jOpen, idKey, g4, descPat, quoteG, statusPat, createdPat, updatedPat] <;> omega
  have hdropP : content.drop (G.length + 8 + pos) = idKey ++ (natToStr t.id.toNat ++ (g4 ++ (descPat ++ (t.desc ++ (quoteG ++ (statusPat ++ (t.status ++ (quoteG ++ (createdPat ++ (t.createdAt ++ (quoteG ++ (updatedPat ++ (t.updatedAt ++ (tailStr rs)))))))))))))) := by
    rw [dropAt' content pos (G.length + 8), hs, ← List.append_assoc]
    exact dropPre (by simp [jOpen]) _
  have hpleP : G.length + 8 + pos ≤ content.length :=
    le_of_lt (posLeOfDropEq hdropP (by simp [idKey]))
  have habs_id : strFind? idPat content pos = some (G.length + 8 + pos) := by
    rw [strFind?_eq hpos, hGfind]
    simp only [Option.map_some']
  have hIdStart : pAdd (cppFind [':'] content (G.length + 8 + pos)) 1 =
      G.length + 13 + pos := by
    rw [cppFind, strFind?_eq hpleP, hdropP, find_colon]
    simp only [Option.map_some', Option.getD_some]
    rw [pAdd_small (by omega)]
    omega
  have hdropIdStartlen : ((G ++ jOpen) ++ ['\"', 'i', 'd', '\"', ':']).length =
      G.length + 13 := by
    simp [jOpen] <;> omega
  have hdropIdStart : content.drop (G.length + 13 + pos) = ' ' :: (natToStr t.id.toNat ++ (g4 ++ (descPat ++ (t.desc ++ (quoteG ++ (statusPat ++ (t.status ++ (quoteG ++ (createdPat ++ (t.createdAt ++ (quoteG ++ (updatedPat ++ (t.updatedAt ++ (tailStr rs)))))))))))))) := by
    rw [dropAt' content pos (G.length + 13), hs]
    rw [show G ++ (jOpen ++ (idKey ++ (natToStr t.id.toNat ++ (g4 ++ (descPat ++ (t.desc ++ (quoteG ++ (statusPat ++ (t.status ++ (quoteG ++ (createdPat ++ (t.createdAt ++ (quoteG ++ (updatedPat ++ (t.updatedAt ++ (tailStr rs)))))))))))))))) =
      ((G ++ jOpen) ++ ['\"', 'i', 'd', '\"', ':']) ++ (' ' :: (natToStr t.id.toNat ++ (g4 ++ (descPat ++ (t.desc ++ (quoteG ++ (statusPat ++ (t.status ++ (quoteG ++ (createdPat ++ (t.createdAt ++ (quoteG ++ (updatedPat ++ (t.updatedAt ++ (tailStr rs)))))))))))))))
      from by simp [idKey, List.append_assoc]]
    exact dropPre hdropIdStartlen _
  have hpleIdStart : G.length + 13 + pos ≤ content.length :=
    le_of_lt (posLeOfDropEq hdropIdStart (by simp))
  have hcomma : cppFind [','] content (G.length + 13 + pos) =
      G.length + 14 + (natToStr t.id.toNat).length + pos := by
    rw [cppFind, strFind?_eq hpleIdStart, hdropIdStart, find_comma _ _ hdig]
    simp only [Option.map_some', Option.getD_some]
    omega
  have hsubstr1 : cppSubstr content (G.length + 13 + pos)
      (G.length + 14 + (natToStr t.id.toNat).length + pos - (G.length + 13 + pos)) =
      some (' ' :: natToStr t.id.toNat) := by
    rw [show G.length + 14 + (natToStr t.id.toNat).length + pos - (G.length + 13 + pos) = 1 + (natToStr t.id.toNat).length
      from by omega]
    rw [cppSubstr, if_pos hpleIdStart, hdropIdStart, takeHead]
  have hstoi : stoi (' ' :: natToStr t.id.toNat) = some t.id := by
    rw [stoi_space_digits, Int.toNat_of_nonneg hid0]
  have hDescStart : pAdd (cppFind descPat content (G.length + 8 + pos)) 16 =
      G.length + 36 + (natToStr t.id.toNat).length + pos := by
    rw [cppFind, strFind?_eq hpleP, hdropP, find_desc _ _ _ hdig]
    simp only [Option.map_some', Option.getD_some]
    rw [pAdd_small (by omega)]
    omega
  have hdropDesclen : ((((((G ++ jOpen) ++ idKey) ++ natToStr t.id.toNat) ++ g4) ++ descPat)).length = G.length + 36 + (natToStr t.id.toNat).length := by
    simp [jOpen, idKey, g4, descPat, quoteG, statusPat, createdPat, updatedPat] <;> omega
  have hdropDesc : content.drop (G.length + 36 + (natToStr t.id.toNat).length + pos) = t.desc ++ ('\"' :: ([',', '\n', ' ', ' ', ' ', ' '] ++ (statusPat ++ (t.status ++ (quoteG ++ (createdPat ++ (t.createdAt ++ (quoteG ++ (updatedPat ++ (t.updatedAt ++ (tailStr rs))))))))))) := by
    rw [dropAt' content pos (G.length + 36 + (natToStr t.id.toNat).length), hs]
    rw [show G ++ (jOpen ++ (idKey ++ (natToStr t.id.toNat ++ (g4 ++ (descPat ++ (t.desc ++ (quoteG ++ (statusPat ++ (t.status ++ (quoteG ++ (createdPat ++ (t.createdAt ++ (quoteG ++ (updatedPat ++ (t.updatedAt ++ (tailStr rs)))))))))))))))) =
      ((((((G ++ jOpen) ++ idKey) ++ natToStr t.id.toNat) ++ g4) ++ descPat)) ++ (t.desc ++ ('\"' :: ([',', '\n', ' ', ' ', ' ', ' '] ++ (statusPat ++ (t.status ++ (quoteG ++ (createdPat ++ (t.createdAt ++ (quoteG ++ (updatedPat ++ (t.updatedAt ++ (tailStr rs))))))))))))
      from by simp [jOpen, idKey, g4, descPat, quoteG, statusPat, createdPat, updatedPat, List.append_assoc]]
    exact dropPre hdropDesclen _
  have hpleDesc : G.length + 36 + (natToStr t.id.toNat).length + pos ≤ content.length :=
    le_of_lt (posLeOfDropEq hdropDesc (by simp))
  have hdescEnd : cppFind ['\"'] content (G.length + 36 + (natToStr t.id.toNat).length + pos) =
      G.length + 36 + (natToStr t.id.toNat).length + t.desc.length + pos := by
    rw [cppFind, strFind?_eq hpleDesc, hdropDesc, find_quote_val _ _ hqD]
    simp only [Option.map_some', Option.getD_some]
    omega
  have hsubstr2 : cppSubstr content (G.length + 36 + (natToStr t.id.toNat).length + pos)
      (G.length + 36 + (natToStr t.id.toNat).length + t.desc.length + pos - (G.length + 36 + (natToStr t.id.toNat).length + pos)) =
      some t.desc := by
    rw [show G.length + 36 + (natToStr t.id.toNat).length + t.desc.length + pos - (G.length + 36 + (natToStr t.id.toNat).length + pos) = t.desc.length
      from by omega]
    rw [cppSubstr, if_pos hpleDesc, hdropDesc, takeLen]
  have hStatStart : pAdd (cppFind statusPat content (G.length + 8 + pos)) 11 =
      G.length + 54 + (natToStr t.id.toNat).length + t.desc.length + pos := by
    rw [cppFind, strFind?_eq hpleP, hdropP, find_status _ _ _ _ hdig hqD]
    simp only [Option.map_some', Option.getD_some]
    rw [pAdd_small (by omega)]
    omega
  have hdropStatlen : (((((((((G ++ jOpen) ++ idKey) ++ natToStr t.id.toNat) ++ g4) ++ descPat) ++ t.desc) ++ quoteG) ++ statusPat)).length = G.length + 54 + (natToStr t.id.toNat).length + t.desc.length := by
    simp [jOpen, idKey, g4, descPat, quoteG, statusPat, createdPat, updatedPat] <;> omega
  have hdropStat : content.drop (G.length + 54 + (natToStr t.id.toNat).length + t.desc.length + pos) = t.status ++ ('\"' :: ([',', '\n', ' ', ' ', ' ', ' '] ++ (createdPat ++ (t.createdAt ++ (quoteG ++ (updatedPat ++ (t.updatedAt ++ (tailStr rs)))))))) := by
    rw [dropAt' content pos (G.length + 54 + (natToStr t.id.toNat).length + t.desc.length), hs]
    rw [show G ++ (jOpen ++ (idKey ++ (natToStr t.id.toNat ++ (g4 ++ (descPat ++ (t.desc ++ (quoteG ++ (statusPat ++ (t.status ++ (quoteG ++ (createdPat ++ (t.createdAt ++ (quoteG ++ (updatedPat ++ (t.updatedAt ++ (tailStr rs)))))))))))))))) =
      (((((((((G ++ jOpen) ++ idKey) ++ natToStr t.id.toNat) ++ g4) ++ descPat) ++ t.desc) ++ quoteG) ++ statusPat)) ++ (t.status ++ ('\"' :: ([',', '\n', ' ', ' ', ' ', ' '] ++ (createdPat ++ (t.createdAt ++ (quoteG ++ (updatedPat ++ (t.updatedAt ++ (tailStr rs)))))))))
      from by simp [jOpen, idKey, g4, descPat, quoteG, statusPat, createdPat, updatedPat, List.append_assoc]]
    exact dropPre hdropStatlen _
  have hpleStat : G.length + 54 + (natToStr t.id.toNat).length + t.desc.length + pos ≤ content.length :=
    le_of_lt (posLeOfDropEq hdropStat (by simp))
  have hstatEnd : cppFind ['\"'] content (G.length + 54 + (natToStr t.id.toNat).length + t.desc.length + pos) =
      G.length + 54 + (natToStr t.id.toNat).length + t.desc.length + t.status.length + pos := by
    rw [cppFind, strFind?_eq hpleStat, hdropStat, find_quote_val _ _ hqS]
    simp only [Option.map_some', Option.getD_some]
    omega
  have hsubstr3 : cppSubstr content (G.length + 54 + (natToStr t.id.toNat).length + t.desc.length + pos)
      (G.length + 54 + (natToStr t.id.toNat).length + t.desc.length + t.status.length + pos -
        (G.length + 54 + (natToStr t.id.toNat).length + t.desc.length + pos)) = some t.status := by
    rw [show G.length + 54 + (natToStr t.id.toNat).length + t.desc.length + t.status.length + pos -
        (G.length + 54 + (natToStr t.id.toNat).length + t.desc.length + pos) = t.status.length from by omega]
    rw [cppSubstr, if_pos hpleStat, hdropStat, takeLen]
  have hCreatStart : pAdd (cppFind createdPat content (G.length + 8 + pos)) 14 =
      G.length + 75 + (natToStr t.id.toNat).length + t.desc.length + t.status.length + pos := by
    rw [cppFind, strFind?_eq hpleP, hdropP, find_created _ _ _ _ _ hdig hqD hqS]
    simp only [Option.map_some', Option.getD_some]
    rw [pAdd_small (by omega)]
    omega
  have hdropCreatlen : ((((((((((((G ++ jOpen) ++ idKey) ++ natToStr t.id.toNat) ++ g4) ++ descPat) ++ t.desc) ++ quoteG) ++ statusPat) ++ t.status) ++ quoteG) ++ createdPat)).length = G.length + 75 + (natToStr t.id.toNat).length + t.desc.length + t.status.length := by
    simp [jOpen, idKey, g4, descPat, quoteG, statusPat, createdPat, updatedPat] <;> omega
  have hdropCreat : content.drop (G.length + 75 + (natToStr t.id.toNat).length + t.desc.length + t.status.length + pos) = t.createdAt ++ ('\"' :: ([',', '\n', ' ', ' ', ' ', ' '] ++ (updatedPat ++ (t.updatedAt ++ (tailStr rs))))) := by
    rw [dropAt' content pos (G.length + 75 + (natToStr t.id.toNat).length + t.desc.length + t.status.length), hs]
    rw [show G ++ (jOpen ++ (idKey ++ (natToStr t.id.toNat ++ (g4 ++ (descPat ++ (t.desc ++ (quoteG ++ (statusPat ++ (t.status ++ (quoteG ++ (createdPat ++ (t.createdAt ++ (quoteG ++ (updatedPat ++ (t.updatedAt ++ (tailStr rs)))))))))))))))) =
      ((((((((((((G ++ jOpen) ++ idKey) ++ natToStr t.id.toNat) ++ g4) ++ descPat) ++ t.desc) ++ quoteG) ++ statusPat) ++ t.status) ++ quoteG) ++ createdPat)) ++ (t.createdAt ++ ('\"' :: ([',', '\n', ' ', ' ', ' ', ' '] ++ (updatedPat ++ (t.updatedAt ++ (tailStr rs))))))
      from by simp [jOpen, idKey, g4, descPat, quoteG, statusPat, createdPat, updatedPat, List.append_assoc]]
    exact dropPre hdropCreatlen _
  have hpleCreat : G.length + 75 + (natToStr t.id.toNat).length + t.desc.length + t.status.length + pos ≤ content.length :=
    le_of_lt (posLeOfDropEq hdropCreat (by simp))
  have hcreatEnd : cppFind ['\"'] content (G.length + 75 + (natToStr t.id.toNat).length + t.desc.length + t.status.length + pos) =
      G.length + 75 + (natToStr t.id.toNat).length + t.desc.length + t.status.length + t.createdAt.length + pos := by
    rw [cppFind, strFind?_eq hpleCreat, hdropCreat, find_quote_val _ _ hqC]
    simp only [Option.map_some', Option.getD_some]
    omega
  have hsubstr4 : cppSubstr content (G.length + 75 + (natToStr t.id.toNat).length + t.desc.length + t.status.length + pos)
      (G.length + 75 + (natToStr t.id.toNat).length + t.desc.length + t.status.length + t.createdAt.length + pos -
        (G.length + 75 + (natToStr t.id.toNat).length + t.desc.length + t.status.length + pos)) = some t.createdAt := by
    rw [show G.length + 75 + (natToStr t.id.toNat).length + t.desc.length + t.status.length + t.createdAt.length + pos -
        (G.length + 75 + (natToStr t.id.toNat).length + t.desc.length + t.status.length + pos) = t.createdAt.length from by omega]
    rw [cppSubstr, if_pos hpleCreat, hdropCreat, takeLen]
  have hUpdStart : pAdd (cppFind updatedPat content (G.length + 8 + pos)) 14 =
      G.length + 96 + (natToStr t.id.toNat).length + t.desc.length + t.status.length + t.createdAt.length + pos := by
    rw [cppFind, strFind?_eq hpleP, hdropP, find_updated _ _ _ _ _ _ hdig hqD hqS hqC]
    simp only [Option.map_some', Option.getD_some]
    rw [pAdd_small (by omega)]
    omega
  have hdropUpdlen : (((((((((((((((G ++ jOpen) ++ idKey) ++ natToStr t.id.toNat) ++ g4) ++ descPat) ++ t.desc) ++ quoteG) ++ statusPat) ++ t.status) ++ quoteG) ++ createdPat) ++ t.createdAt) ++ quoteG) ++ updatedPat)).length = G.length + 96 + (natToStr t.id.toNat).length + t.desc.length + t.status.length + t.createdAt.length := by
    simp [jOpen, idKey, g4, descPat, quoteG, statusPat, createdPat, updatedPat] <;> omega
  have hdropUpd : content.drop (G.length + 96 + (natToStr t.id.toNat).length + t.desc.length + t.status.length + t.createdAt.length + pos) = t.updatedAt ++ ('\"' :: tr) := by
    rw [dropAt' content pos (G.length + 96 + (natToStr t.id.toNat).length + t.desc.length + t.status.length + t.createdAt.length), hs]
    rw [show G ++ (jOpen ++ (idKey ++ (natToStr t.id.toNat ++ (g4 ++ (descPat ++ (t.desc ++ (quoteG ++ (statusPat ++ (t.status ++ (quoteG ++ (createdPat ++ (t.createdAt ++ (quoteG ++ (updatedPat ++ (t.updatedAt ++ (tailStr rs)))))))))))))))) =
      (((((((((((((((G ++ jOpen) ++ idKey) ++ natToStr t.id.toNat) ++ g4) ++ descPat) ++ t.desc) ++ quoteG) ++ statusPat) ++ t.status) ++ quoteG) ++ createdPat) ++ t.createdAt) ++ quoteG) ++ updatedPat)) ++ (t.updatedAt ++ tailStr rs)
      from by simp [jOpen, idKey, g4, descPat, quoteG, statusPat, createdPat, updatedPat, List.append_assoc]]
    rw [dropPre hdropUpdlen _]
    rw [htr]
  have hpleUpd : G.length + 96 + (natToStr t.id.toNat).length + t.desc.length + t.status.length + t.createdAt.length + pos ≤ content.length :=
    le_of_lt (posLeOfDropEq hdropUpd (by simp))
  have hupdEnd : cppFind ['\"'] content
      (G.length + 96 + (natToStr t.id.toNat).length + t.desc.length + t.status.length + t.createdAt.length + pos) =
      G.length + 96 + (natToStr t.id.toNat).length + t.desc.length + t.status.length + t.createdAt.length + t.updatedAt.length + pos := by
    rw [cppFind, strFind?_eq hpleUpd, hdropUpd, find_quote_val _ _ hqU]
    simp only [Option.map_some', Option.getD_some]
    omega
  have hsubstr5 : cppSubstr content (G.length + 96 + (natToStr t.id.toNat).length + t.desc.length + t.status.length + t.createdAt.length + pos)
      (G.length + 96 + (natToStr t.id.toNat).length + t.desc.length + t.status.length + t.createdAt.length + t.updatedAt.length + pos -
        (G.length + 96 + (natToStr t.id.toNat).length + t.desc.length + t.status.length + t.createdAt.length + pos)) = some t.updatedAt := by
    rw [show G.length + 96 + (natToStr t.id.toNat).length + t.desc.length + t.status.length + t.createdAt.length + t.updatedAt.length + pos -
        (G.length + 96 + (natToStr t.id.toNat).length + t.desc.length + t.status.length + t.createdAt.length + pos) = t.updatedAt.length from by omega]
    rw [cppSubstr, if_pos hpleUpd, hdropUpd, takeLen]
  have hdropEndlen : ((((((((((((((((G ++ jOpen) ++ idKey) ++ natToStr t.id.toNat) ++ g4) ++ descPat) ++ t.desc) ++ quoteG) ++ statusPat) ++ t.status) ++ quoteG) ++ createdPat) ++ t.createdAt) ++ quoteG) ++ updatedPat) ++ t.updatedAt)).length = G.length + 96 + (natToStr t.id.toNat).length + t.desc.length + t.status.length + t.createdAt.length + t.updatedAt.length := by
    simp [jOpen, idKey, g4, descPat, quoteG, statusPat, createdPat, updatedPat] <;> omega
  have hdropEnd : content.drop (G.length + 96 + (natToStr t.id.toNat).length + t.desc.length + t.status.length + t.createdAt.length + t.updatedAt.length + pos) = tailStr rs := by
    rw [dropAt' content pos (G.length + 96 + (natToStr t.id.toNat).length + t.desc.length + t.status.length + t.createdAt.length + t.updatedAt.length), hs]
    rw [show G ++ (jOpen ++ (idKey ++ (natToStr t.id.toNat ++ (g4 ++ (descPat ++ (t.desc ++ (quoteG ++ (statusPat ++ (t.status ++ (quoteG ++ (createdPat ++ (t.createdAt ++ (quoteG ++ (updatedPat ++ (t.updatedAt ++ (tailStr rs)))))))))))))))) =
      ((((((((((((((((G ++ jOpen) ++ idKey) ++ natToStr t.id.toNat) ++ g4) ++ descPat) ++ t.desc) ++ quoteG) ++ statusPat) ++ t.status) ++ quoteG) ++ createdPat) ++ t.createdAt) ++ quoteG) ++ updatedPat) ++ t.updatedAt)) ++ (tailStr rs)
      from by simp [jOpen, idKey, g4, descPat, quoteG, statusPat, createdPat, updatedPat, List.append_assoc]]
    exact dropPre hdropEndlen _
  refine ⟨?_, hdropEnd⟩
  exact loadLoop_step_core content fuel pos acc nid (G.length + 8 + pos)
    (G.length + 13 + pos) (G.length + 14 + (natToStr t.id.toNat).length + pos)
    (G.length + 36 + (natToStr t.id.toNat).length + pos) (G.length + 36 + (natToStr t.id.toNat).length + t.desc.length + pos)
    (G.length + 54 + (natToStr t.id.toNat).length + t.desc.length + pos) (G.length + 54 + (natToStr t.id.toNat).length + t.desc.length + t.status.length + pos)
    (G.length + 75 + (natToStr t.id.toNat).length + t.desc.length + t.status.length + pos)
    (G.length + 75 + (natToStr t.id.toNat).length + t.desc.length + t.status.length + t.createdAt.length + pos)
    (G.length + 96 + (natToStr t.id.toNat).length + t.desc.length + t.status.length + t.createdAt.length + pos)
    (G.length + 96 + (natToStr t.id.toNat).length + t.desc.length + t.status.length + t.createdAt.length + t.updatedAt.length + pos)
    t.id (' ' :: natToStr t.id.toNat) t.desc t.status t.createdAt t.updatedAt
    habs_id hIdStart hcomma hsubstr1 hstoi hDescStart hdescEnd hsubstr2 hStatStart
    hstatEnd hsubstr3 hCreatStart hcreatEnd hsubstr4 hUpdStart hupdEnd hsubstr5

theorem tailStr_ne_nil (rs : List TaskTracker) : tailStr rs ≠ [] := by
  cases rs with
  | nil => simp [tailStr]
  | cons r rs => simp [tailStr]

theorem tailStr_len : ∀ rs : List TaskTracker, rs.length + 8 ≤ (tailStr rs).length := by
  intro rs
  induction rs with
  | nil => simp [tailStr]
  | cons r rs ih =>
    rw [tailStr]
    simp only [List.length_append, List.length_cons, List.length_nil]
    omega

theorem mkLive {t : TaskTracker} (h : t.isDeleted = false) :
    (⟨t.id, t.desc, t.status, t.createdAt, t.updatedAt, false⟩ : TaskTracker) = t := by
  cases t
  simp_all

set_option maxHeartbeats 1600000 in
theorem loadLoop_run : ∀ (rs : List TaskTracker) (content : Str) (fuel pos : Nat)
    (acc : List TaskTracker) (nid : Int),
    content.length + 16 < 2 ^ 64 →
    pos ≤ content.length →
    (∀ t ∈ rs, SafeT t) →
    (∀ t ∈ rs, t.isDeleted = false) →
    content.drop pos = tailStr rs →
    rs.length < fuel →
    loadLoop content fuel pos acc nid =
      some (acc ++ rs, rs.foldl (fun a t => max a (t.id + 1)) nid) := by
  intro rs
  induction rs with
  | nil =>
    intro content fuel pos acc nid hsz hpos hsafe hlive hdrop hfuel
    obtain ⟨fuel, rfl⟩ : ∃ k, fuel = k + 1 := ⟨fuel - 1, by omega⟩
    have habs : strFind? idPat content pos = none := by
      rw [strFind?_eq hpos, hdrop]
      rw [show tailStr [] = ['\"', '\n', ' ', ' ', '\x7d', '\n', ']', '\n'] from rfl]
      rw [find_id_end]
      rfl
    simp only [loadLoop, habs]
    simp
  | cons r rest ih =>
    intro content fuel pos acc nid hsz hpos hsafe hlive hdrop hfuel
    obtain ⟨fuel, rfl⟩ : ∃ k, fuel = k + 1 := ⟨fuel - 1, by omega⟩
    have hid0 : 0 ≤ r.id := (hsafe r (by simp)).1
    have hs : content.drop pos = ['\"', '\n', ' ', ' ', '\x7d', ',', '\n'] ++
        (jOpen ++ (idKey ++ (natToStr r.id.toNat ++ (g4 ++ (descPat ++ (r.desc ++
        (quoteG ++ (statusPat ++ (r.status ++ (quoteG ++ (createdPat ++
        (r.createdAt ++ (quoteG ++ (updatedPat ++
        (r.updatedAt ++ tailStr rest))))))))))))))) := by
      rw [hdrop, tailStr, recBlock, intToStr_nonneg hid0]
      simp [List.append_assoc]
    have hGfind : rfind idPat (content.drop pos) =
        some ((['\"', '\n', ' ', ' ', '\x7d', ',', '\n'] : Str).length + 8) := by
      rw [hs, find_id_leadSep]
      rfl
    obtain ⟨hstep, hdrop'⟩ := loadLoop_step content fuel pos acc nid r rest
      ['\"', '\n', ' ', ' ', '\x7d', ',', '\n'] hsz hpos (hsafe r (by simp)) hs hGfind
    have hposP : (['\"', '\n', ' ', ' ', '\x7d', ',', '\n'] : Str).length + 96 +
        (natToStr r.id.toNat).length + r.desc.length + r.status.length +
        r.createdAt.length + r.updatedAt.length + pos ≤ content.length :=
      le_of_lt (posLeOfDropEq hdrop' (tailStr_ne_nil rest))
    have hfuel' : rest.length < fuel := by
      simp only [List.length_cons] at hfuel
      omega
    have hrec := ih content fuel _ (acc ++ [⟨r.id, r.desc, r.status, r.createdAt,
        r.updatedAt, false⟩]) (max nid (r.id + 1)) hsz hposP
      (fun t ht => hsafe t (by simp [ht])) (fun t ht => hlive t (by simp [ht]))
      hdrop' hfuel'
    rw [hstep, hrec, mkLive (hlive r (by simp))]
    simp [List.foldl_cons, List.append_assoc]

set_option maxHeartbeats 1600000 in
/-- Round trip over the serializer for stores whose live records are safe
for the naive parser (no quote and no `[]` in the string fields,
nonnegative id): saving and re-parsing returns exactly the live records,
with `nextId` the fold of `max` over `id + 1` starting from 1 — the value
the C++ loader computes. -/
theorem load_save (ts : List TaskTracker)
    (hsafe : ∀ t ∈ ts.filter (fun t => decide (t.isDeleted = false)), SafeT t)
    (hsz : (rebuildContent (saveString ts)).length + 16 < 2 ^ 64) :
    loadTasksString (saveString ts) =
      some (ts.filter (fun t => decide (t.isDeleted = false)),
        (ts.filter (fun t => decide (t.isDeleted = false))).foldl
          (fun a t => max a (t.id + 1)) 1) := by
  cases hf : ts.filter (fun t => decide (t.isDeleted = false)) with
  | nil =>
    have hc := content_shape_nil ts hf
    simp only [loadTasksString, hc, hf]
    decide
  | cons r rest =>
    have hc := content_shape_cons ts r rest hf
    have hsafe' : ∀ t ∈ r :: rest, SafeT t := by rw [hf] at hsafe; exact hsafe
    have hlive : ∀ t ∈ r :: rest, t.isDeleted = false := by
      intro t ht
      rw [← hf] at ht
      simpa using (List.mem_filter.mp ht).2
    have hid0 : 0 ≤ r.id := (hsafe' r (by simp)).1
    have hbrk : (strFind? brkPat (rebuildContent (saveString ts)) 0).isSome = false :=
      content_noBrk_cons ts r rest hf hsafe'
    have hne : (rebuildContent (saveString ts)).isEmpty = false := by
      rw [hc]; rfl
    have hs0 : (rebuildContent (saveString ts)).drop 0 = ['[', '\n'] ++
        (jOpen ++ (idKey ++ (natToStr r.id.toNat ++ (g4 ++ (descPat ++ (r.desc ++
        (quoteG ++ (statusPat ++ (r.status ++ (quoteG ++ (createdPat ++
        (r.createdAt ++ (quoteG ++ (updatedPat ++
        (r.updatedAt ++ tailStr rest))))))))))))))) := by
      rw [List.drop_zero, hc, recBlock, intToStr_nonneg hid0]
      simp [List.append_assoc]
    have hGfind0 : rfind idPat ((rebuildContent (saveString ts)).drop 0) =
        some ((['[', '\n'] : Str).length + 8) := by
      rw [hs0, find_id_lead0]
      rfl
    obtain ⟨hstep, hdrop'⟩ := loadLoop_step (rebuildContent (saveString ts))
      ((rebuildContent (saveString ts)).length + 1) 0 [] 1 r rest ['[', '\n']
      hsz (Nat.zero_le _) (hsafe' r (by simp)) hs0 hGfind0
    have hposP : (['[', '\n'] : Str).length + 96 + (natToStr r.id.toNat).length +
        r.desc.length + r.status.length + r.createdAt.length + r.updatedAt.length +
        0 ≤ (rebuildContent (saveString ts)).length :=
      le_of_lt (posLeOfDropEq hdrop' (tailStr_ne_nil rest))
    have hlen := congrArg List.length hdrop'
    rw [List.length_drop] at hlen
    have hfuelR : rest.length < (rebuildContent (saveString ts)).length + 1 := by
      have h8 := tailStr_len rest
      omega
    have hrun := loadLoop_run rest (rebuildContent (saveString ts))
      ((rebuildContent (saveString ts)).length + 1) _
      ([] ++ [⟨r.id, r.desc, r.status, r.createdAt, r.updatedAt, false⟩])
      (max 1 (r.id + 1)) hsz hposP (fun t ht => hsafe' t (by simp [ht]))
      (fun t ht => hlive t (by simp [ht])) hdrop' hfuelR
    simp only [loadTasksString]
    rw [if_neg (by rw [hne, hbrk]; simp)]
    rw [show (rebuildContent (saveString ts)).length + 2 =
      (rebuildContent (saveString ts)).length + 1 + 1 from by omega]
    rw [hstep, hrun, mkLive (hlive r (by simp))]
    simp [List.foldl_cons]

/-! ### Claim C4: permanence of soft deletion -/

theorem findAndApply_mem : ∀ (ts : List TaskTracker) (i : Int)
    (f : TaskTracker → TaskTracker) (u : TaskTracker),
    u ∈ (findAndApply ts i f).1 →
    u ∈ ts ∨ ∃ t ∈ ts, t.id = i ∧ t.isDeleted = false ∧ u = f t := by
  intro ts i f
  induction ts with
  | nil => intro u hu; simp [findAndApply] at hu
  | cons t ts ih =>
    intro u hu
    by_cases h : t.id = i ∧ t.isDeleted = false
    · rw [findAndApply, if_pos h] at hu
      cases List.mem_cons.mp hu with
      | inl hu => exact Or.inr ⟨t, by simp, h.1, h.2, hu⟩
      | inr hu => exact Or.inl (List.mem_cons_of_mem _ hu)
    · rw [findAndApply, if_neg h] at hu
      simp only at hu
      cases List.mem_cons.mp hu with
      | inl hu => exact Or.inl (by simp [hu])
      | inr hu =>
        cases ih u hu with
        | inl h2 => exact Or.inl (List.mem_cons_of_mem _ h2)
        | inr h2 =>
          obtain ⟨v, hv, h3⟩ := h2
          exact Or.inr ⟨v, List.mem_cons_of_mem _ hv, h3⟩

theorem findAndApply_found_of_exists (ts : List TaskTracker) (i : Int)
    (f : TaskTracker → TaskTracker)
    (h : ∃ t ∈ ts, t.id = i ∧ t.isDeleted = false) :
    (findAndApply ts i f).2 = true := by
  by_contra hc
  rw [Bool.not_eq_true] at hc
  obtain ⟨t, ht, h1, h2⟩ := h
  exact ((findAndApply_not_found_iff ts i f).mp hc t ht) ⟨h1, h2⟩

theorem lookupOp_nextId (m : TaskManager) (j : Int) (f : TaskTracker → TaskTracker)
    (msg : Str) : (TaskManager.lookupOp m j f msg).mgr.nextId = m.nextId := by
  rw [TaskManager.lookupOp]
  by_cases hr : (findAndApply m.tasks j f).2 = true
  · rw [if_pos hr]
  · rw [if_neg hr]

theorem dead_invariant_lookup (m : TaskManager) (id j : Int)
    (f : TaskTracker → TaskTracker) (msg : Str) (hd : DeadAt m id)
    (hlt : id < m.nextId)
    (hf : ∀ t, (f t).id = t.id)
    (hdel : ∀ t, (f t).isDeleted = true ∨ (f t).isDeleted = t.isDeleted) :
    DeadAt (TaskManager.lookupOp m j f msg).mgr id ∧
      id < (TaskManager.lookupOp m j f msg).mgr.nextId := by
  refine ⟨?_, by rw [lookupOp_nextId]; exact hlt⟩
  intro u hu hid
  by_cases hr : (findAndApply m.tasks j f).2 = true
  · rw [lookupOp_hit m j f msg hr] at hu
    cases findAndApply_mem m.tasks j f u hu with
    | inl h2 => exact hd u h2 hid
    | inr h2 =>
      obtain ⟨t, ht, htj, htlive, rfl⟩ := h2
      cases hdel t with
      | inl h3 => exact h3
      | inr h3 =>
        rw [h3]
        have hti : t.id = id := by rw [← hf t]; exact hid
        exact absurd (hd t ht hti) (by rw [htlive]; simp)
  · rw [lookupOp_miss m j f msg (by simpa using hr)] at hu
    exact hd u hu hid

theorem dead_invariant_step (m : TaskManager) (id : Int) (c : Cmd)
    (h : DeadAt m id ∧ id < m.nextId) :
    DeadAt (applyCmd m c) id ∧ id < (applyCmd m c).nextId := by
  obtain ⟨hd, hlt⟩ := h
  cases c with
  | add d now =>
    constructor
    · intro u hu hid
      simp only [applyCmd, TaskManager.addTask, List.mem_append,
        List.mem_singleton] at hu
      cases hu with
      | inl hu => exact hd u hu hid
      | inr hu =>
        subst hu
        have hexact : m.nextId = id := hid
        exact absurd hexact (by omega)
    · simp only [applyCmd, TaskManager.addTask]
      omega
  | update i d now =>
    exact dead_invariant_lookup m id i (fun t => t.updateDescription d now)
      ("Task updated successfully".data) hd hlt (fun t => rfl) (fun t => Or.inr rfl)
  | del i =>
    exact dead_invariant_lookup m id i TaskTracker.deleteTask
      ("Task deleted successfully".data) hd hlt (fun t => rfl) (fun t => Or.inl rfl)
  | markIP i now =>
    exact dead_invariant_lookup m id i (fun t => t.updateStatus "in-progress".data now)
      ("Task marked as in progress".data) hd hlt (fun t => rfl) (fun t => Or.inr rfl)
  | markD i now =>
    exact dead_invariant_lookup m id i (fun t => t.updateStatus "done".data now)
      ("Task marked as done".data) hd hlt (fun t => rfl) (fun t => Or.inr rfl)

theorem dead_invariant_run (id : Int) : ∀ (cs : List Cmd) (m : TaskManager),
    DeadAt m id ∧ id < m.nextId →
    DeadAt (applyCmds m cs) id ∧ id < (applyCmds m cs).nextId := by
  intro cs
  induction cs with
  | nil => intro m h; exact h
  | cons c cs ih =>
    intro m h
    have h2 := ih (applyCmd m c) (dead_invariant_step m id c h)
    simpa [applyCmds] using h2

theorem dead_not_in_displayedAll (ts : List TaskTracker) (id : Int)
    (h : ∀ t ∈ ts, t.id = id → t.isDeleted = true) :
    ∀ u ∈ displayedAll ts, u.id ≠ id := by
  intro u hu he
  rw [displayedAll_eq_filter] at hu
  have h2 := List.mem_filter.mp hu
  have hdead := h u h2.1 he
  have hlive := h2.2
  rw [hdead] at hlive
  simp at hlive

theorem dead_not_in_displayedByStatus (ts : List TaskTracker) (id : Int) (s : Str)
    (h : ∀ t ∈ ts, t.id = id → t.isDeleted = true) :
    ∀ u ∈ displayedByStatus s ts, u.id ≠ id := by
  intro u hu he
  rw [displayedByStatus_eq_filter] at hu
  have h2 := List.mem_filter.mp hu
  have hdead := h u h2.1 he
  have hlive := h2.2
  simp only [decide_eq_true_eq] at hlive
  rw [hdead] at hlive
  exact absurd hlive.1 (by simp)

theorem nodup_unique_id (pre post : List TaskTracker) (t : TaskTracker)
    (h : ((pre ++ t :: post).map TaskTracker.id).Nodup) :
    ∀ u, u ∈ pre ∨ u ∈ post → ¬(u.id = t.id) := by
  rw [List.map_append, List.map_cons, List.nodup_append] at h
  obtain ⟨h1, h2, h3⟩ := h
  intro u hu he
  cases hu with
  | inl hu =>
    exact h3 (he ▸ List.mem_map_of_mem TaskTracker.id hu) (List.mem_cons_self _ _)
  | inr hu =>
    exact (List.nodup_cons.mp h2).1 (he ▸ List.mem_map_of_mem TaskTracker.id hu)

theorem delete_deadAt (m : TaskManager) (id : Int)
    (hnd : (m.tasks.map TaskTracker.id).Nodup)
    (hfound : (findAndApply m.tasks id TaskTracker.deleteTask).2 = true) :
    DeadAt (TaskManager.deleteTask m id).mgr id := by
  obtain ⟨pre, t, post, heq, htid, htlive, hpre, hres⟩ :=
    findAndApply_found_decomp m.tasks id TaskTracker.deleteTask hfound
  intro u hu hid
  rw [TaskManager.deleteTask, lookupOp_hit m id _ _ hfound] at hu
  rw [hres, List.mem_append, List.mem_cons] at hu
  have huniq := nodup_unique_id pre post t (heq ▸ hnd)
  cases hu with
  | inl hu => exact absurd (hid.trans htid.symm) (huniq u (Or.inl hu))
  | inr hu =>
    cases hu with
    | inl hu => rw [hu]; rfl
    | inr hu => exact absurd (hid.trans htid.symm) (huniq u (Or.inr hu))

theorem safeT_deleteTask {t : TaskTracker} (h : SafeT t) : SafeT t.deleteTask := h

/-- C4: on a store with pairwise-distinct ids whose records are safe for
the naive parser, when a live record with the given id exists, `deleteTask`
reports success, and afterwards (1) no record with that id appears in
`listAllTasks` or in `listTasksByStatus` for any status, (2) the same holds
after every further sequence of mutating commands in the run, (3) a second
`deleteTask` on the same id reports "not found" and changes nothing, and
(4) after reconstructing the manager from the saved file, no record with
that id appears in either listing. -/
theorem C4_delete_permanent (m : TaskManager) (id : Int)
    (hinv : IdInv m)
    (hnd : (m.tasks.map TaskTracker.id).Nodup)
    (hsafe : ∀ t ∈ m.tasks, SafeT t)
    (hex : ∃ t ∈ m.tasks, t.id = id ∧ t.isDeleted = false)
    (hsz : (rebuildContent (saveString
      (TaskManager.deleteTask m id).mgr.tasks)).length + 16 < 2 ^ 64) :
    (TaskManager.deleteTask m id).found = true ∧
    (∀ u ∈ (TaskManager.deleteTask m id).mgr.listAllTasks, u.id ≠ id) ∧
    (∀ s : Str, ∀ u ∈ (TaskManager.deleteTask m id).mgr.listTasksByStatus s,
      u.id ≠ id) ∧
    (∀ cs : List Cmd,
      (∀ u ∈ (applyCmds (TaskManager.deleteTask m id).mgr cs).listAllTasks,
        u.id ≠ id) ∧
      ∀ s : Str,
        ∀ u ∈ (applyCmds (TaskManager.deleteTask m id).mgr cs).listTasksByStatus s,
          u.id ≠ id) ∧
    (TaskManager.deleteTask (TaskManager.deleteTask m id).mgr id =
      ⟨(TaskManager.deleteTask m id).mgr, false, notFoundMsg id⟩) ∧
    (∀ m2, TaskManager.init (TaskManager.deleteTask m id).mgr.file = some m2 →
      (∀ u ∈ m2.listAllTasks, u.id ≠ id) ∧
      ∀ s : Str, ∀ u ∈ m2.listTasksByStatus s, u.id ≠ id) := by
  obtain ⟨t0, ht0, ht0id, ht0live⟩ := hex
  have hfound : (findAndApply m.tasks id TaskTracker.deleteTask).2 = true :=
    findAndApply_found_of_exists m.tasks id _ ⟨t0, ht0, ht0id, ht0live⟩
  have hdead : DeadAt (TaskManager.deleteTask m id).mgr id :=
    delete_deadAt m id hnd hfound
  have hnext : (TaskManager.deleteTask m id).mgr.nextId = m.nextId := by
    rw [TaskManager.deleteTask]
    exact lookupOp_nextId m id _ _
  have hlt : id < (TaskManager.deleteTask m id).mgr.nextId := by
    rw [hnext, ← ht0id]
    exact hinv t0 ht0
  refine ⟨?_, ?_, ?_, ?_, ?_, ?_⟩
  · rw [TaskManager.deleteTask, lookupOp_found]
    exact hfound
  · exact fun u hu => dead_not_in_displayedAll _ id hdead u hu
  · exact fun s u hu => dead_not_in_displayedByStatus _ id s hdead u hu
  · intro cs
    have hrun := dead_invariant_run id cs (TaskManager.deleteTask m id).mgr
      ⟨hdead, hlt⟩
    exact ⟨fun u hu => dead_not_in_displayedAll _ id hrun.1 u hu,
      fun s u hu => dead_not_in_displayedByStatus _ id s hrun.1 u hu⟩
  · have hnf : (findAndApply (TaskManager.deleteTask m id).mgr.tasks id
        TaskTracker.deleteTask).2 = false := by
      rw [findAndApply_not_found_iff]
      intro u hu h
      exact absurd (hdead u hu h.1) (by rw [h.2]; simp)
    exact lookupOp_miss (TaskManager.deleteTask m id).mgr id TaskTracker.deleteTask
      ("Task deleted successfully".data) hnf
  · intro m2 hm2
    have hfile : (TaskManager.deleteTask m id).mgr.file =
        some (saveString (TaskManager.deleteTask m id).mgr.tasks) := by
      rw [TaskManager.deleteTask, lookupOp_hit m id _ _ hfound]
    have hsafe' : ∀ u ∈ (TaskManager.deleteTask m id).mgr.tasks, SafeT u := by
      intro u hu
      rw [TaskManager.deleteTask, lookupOp_hit m id _ _ hfound] at hu
      cases findAndApply_mem m.tasks id TaskTracker.deleteTask u hu with
      | inl h2 => exact hsafe u h2
      | inr h2 =>
        obtain ⟨v, hv, _, _, rfl⟩ := h2
        exact safeT_deleteTask (hsafe v hv)
    have hload := load_save (TaskManager.deleteTask m id).mgr.tasks
      (fun u hu => hsafe' u (List.mem_filter.mp hu).1) hsz
    rw [hfile] at hm2
    simp only [TaskManager.init] at hm2
    rw [hload] at hm2
    simp only [Option.map_some'] at hm2
    rw [Option.some.injEq] at hm2
    subst hm2
    have hprop : ∀ u ∈ (TaskManager.deleteTask m id).mgr.tasks.filter
        (fun t => decide (t.isDeleted = false)), u.id = id → u.isDeleted = true := by
      intro u hu he
      exact hdead u (List.mem_filter.mp hu).1 he
    exact ⟨fun u hu => dead_not_in_displayedAll _ id hprop u hu,
      fun s u hu => dead_not_in_displayedByStatus _ id s hprop u hu⟩

/-- Witness for C4: on the store with the single live task id 1, deleting
id 1 succeeds, id 1 is gone from the listing, and a second delete of id 1
reports not found and leaves the manager unchanged. -/
theorem C4_delete_permanent_witness :
    ((TaskManager.mk [⟨1, ['a'], ['t', 'o', 'd', 'o'], ['T'], ['T'], false⟩] 2
        none).deleteTask 1).found = true ∧
    (∀ u ∈ ((TaskManager.mk [⟨1, ['a'], ['t', 'o', 'd', 'o'], ['T'], ['T'], false⟩] 2
        none).deleteTask 1).mgr.listAllTasks, u.id ≠ 1) ∧
    (TaskManager.deleteTask
        ((TaskManager.mk [⟨1, ['a'], ['t', 'o', 'd', 'o'], ['T'], ['T'], false⟩] 2
          none).deleteTask 1).mgr 1 =
      ⟨((TaskManager.mk [⟨1, ['a'], ['t', 'o', 'd', 'o'], ['T'], ['T'], false⟩] 2
          none).deleteTask 1).mgr, false, notFoundMsg 1⟩) := by
  have H := C4_delete_permanent
    (TaskManager.mk [⟨1, ['a'], ['t', 'o', 'd', 'o'], ['T'], ['T'], false⟩] 2 none) 1
    (by intro t ht; rw [List.mem_singleton] at ht; subst ht; decide)
    (by decide)
    (by
      intro t ht
      rw [List.mem_singleton] at ht
      subst ht
      exact ⟨by decide,
        fun c hc he => by subst he; simp at hc,
        fun c hc he => by subst he; simp at hc,
        fun c hc he => by subst he; simp at hc,
        fun c hc he => by subst he; simp at hc,
        by decide, by decide, by decide, by decide⟩)
    ⟨⟨1, ['a'], ['t', 'o', 'd', 'o'], ['T'], ['T'], false⟩, by decide, by decide,
      by decide⟩
    (by decide)
  exact ⟨H.1, H.2.1, H.2.2.2.2.1⟩

set_option maxRecDepth 100000 in
/-- Counterexample to C4 as stated ("for every store state ... after
save-and-reload"): in the store whose task 1 carries a crafted description
(reachable verbatim through `add`, which stores text unescaped), deleting
the live task 2 succeeds and the saved file contains only record 1 — yet
reloading that file re-parses a live record with id 2 out of the text
embedded in record 1's description, so id 2 reappears in `listAllTasks`
and in `listTasksByStatus "todo"` after save-and-reload. -/
theorem C4_counterexample :
    ((TaskManager.mk
        [⟨1, "zz\"updatedAt\": \"x\", \"id\": 2, \"description\": \"b\", \"status\": \"todo\", \"createdAt\": \"T\", \"updatedAt\": \"T".data,
          "todo".data, "T".data, "T".data, false⟩,
         ⟨2, "b".data, "todo".data, "T".data, "T".data, false⟩] 3
        none).deleteTask 2).found = true ∧
    (TaskManager.init (((TaskManager.mk
        [⟨1, "zz\"updatedAt\": \"x\", \"id\": 2, \"description\": \"b\", \"status\": \"todo\", \"createdAt\": \"T\", \"updatedAt\": \"T".data,
          "todo".data, "T".data, "T".data, false⟩,
         ⟨2, "b".data, "todo".data, "T".data, "T".data, false⟩] 3
        none).deleteTask 2).mgr.file)).map
      (fun m2 => (m2.listAllTasks).map TaskTracker.id) = some [1, 2] ∧
    (TaskManager.init (((TaskManager.mk
        [⟨1, "zz\"updatedAt\": \"x\", \"id\": 2, \"description\": \"b\", \"status\": \"todo\", \"createdAt\": \"T\", \"updatedAt\": \"T".data,
          "todo".data, "T".data, "T".data, false⟩,
         ⟨2, "b".data, "todo".data, "T".data, "T".data, false⟩] 3
        none).deleteTask 2).mgr.file)).map
      (fun m2 => (m2.listTasksByStatus "todo".data).map TaskTracker.id) =
      some [1, 2] := by
  decide
